import Mathlib

/-!
Verification of the kai-bot command-interpretation pipeline (`src/index.js`).

The JavaScript source is shallowly embedded: strings are Lean `String`s
processed as `List Char`, the JS regular expressions of the source are
implemented as bespoke executable matchers with JS semantics (leftmost match,
alternatives in order, greedy/lazy quantifiers as written), instants
(`Date.now()`, `new Date()`) are integer milliseconds since the Unix epoch
passed explicitly, and the process-local mutable state (the pending-action
map, the spreadsheet contents) is passed and returned explicitly.
-/

namespace KaiBot

/-! ## Character classes and basic string helpers -/

/-- The JS regex whitespace class `\s` (also the class used by
`String.prototype.trim`): space, tab, line terminators, NBSP, the Unicode
space separators, and BOM. -/
def jsWs (c : Char) : Bool :=
  c == ' ' || c == '\t' || c == '\n' || c == '\r' || c == '\u000b' ||
  c == '\u000c' || c == ' ' || c == ' ' ||
  (' ' ≤ c && c ≤ ' ') || c == ' ' || c == ' ' ||
  c == ' ' || c == ' ' || c == '　' || c == '﻿'

/-- `trim()`: drop JS whitespace from both ends. -/
def jsTrim (l : List Char) : List Char :=
  ((l.dropWhile jsWs).reverse.dropWhile jsWs).reverse

/-- `replace(/　/g, " ")` applied character-wise. -/
def zenkakuToSpace (c : Char) : Char :=
  if c = '　' then ' ' else c

/-- The character list of `String(text||"").replace(/　/g," ").trim()`,
the normalization shared by `normalizeText`, `isTriggeredText` and
`stripTriggerPrefix` in the source. -/
def normChars (s : String) : List Char :=
  jsTrim (s.data.map zenkakuToSpace)

/-- `normalizeText` of the source. -/
def normalizeText (s : String) : String :=
  String.mk (normChars s)

/-! ## Trigger detector (`isTriggeredText`, `stripTriggerPrefix`)

The source tests `/[@＠]\s*KAI\s*bot/i` anywhere and
`/^(?:ボット|ぼっと|おーい)(?:\s|[、,。.!！?？:：]|$)/` at the head.  The `/i`
flag on the ASCII letters `KAI bot` canonicalizes exactly to the two cases of
each letter, so the matcher below tests each position against the explicit
two-character alternatives. -/

/-- One case-insensitive pattern position: the character is `lo` or `hi`. -/
def ciChar (lo hi c : Char) : Bool := c == lo || c == hi

/-- Match a list of per-character predicates as a prefix, returning the rest. -/
def stripPats : List (Char → Bool) → List Char → Option (List Char)
  | [], l => some l
  | _ :: _, [] => none
  | p :: ps, c :: cs => if p c then stripPats ps cs else none

def kaiPats : List (Char → Bool) := [ciChar 'k' 'K', ciChar 'a' 'A', ciChar 'i' 'I']

def botPats : List (Char → Bool) := [ciChar 'b' 'B', ciChar 'o' 'O', ciChar 't' 'T']

/-- The mention marker `@` or full-width `＠`. -/
def isAt (c : Char) : Bool := c == '@' || c == '＠'

/-- Match `[@＠]\s*KAI\s*bot` (case-insensitive) at the head of the list,
returning the remainder after `bot`.  The greedy `\s*` runs need no
backtracking because `K`/`k` and `b`/`B` are not whitespace. -/
def mentionRest (l : List Char) : Option (List Char) :=
  match l with
  | [] => none
  | c :: cs =>
    if isAt c then
      match stripPats kaiPats (cs.dropWhile jsWs) with
      | none => none
      | some r =>
        match stripPats botPats (r.dropWhile jsWs) with
        | none => none
        | some r2 => some r2
    else none

/-- `/[@＠]\s*KAI\s*bot/i.test` — search every position. -/
def anywhereKai : List Char → Bool
  | [] => false
  | c :: cs => (mentionRest (c :: cs)).isSome || anywhereKai cs

/-- Match a literal prefix, returning the rest. -/
def stripLit : List Char → List Char → Option (List Char)
  | [], l => some l
  | _ :: _, [] => none
  | p :: ps, c :: cs => if c == p then stripLit ps cs else none

/-- The head-only wake words, in the source's alternation order. -/
def wakeWords : List (List Char) := [['ボ', 'ッ', 'ト'], ['ぼ', 'っ', 'と'], ['お', 'ー', 'い']]

/-- The boundary class `(?:\s|[、,。.!！?？:：])` that must follow a wake word. -/
def wakeBoundary (c : Char) : Bool :=
  jsWs c || c == '、' || c == ',' || c == '。' || c == '.' || c == '!' ||
  c == '！' || c == '?' || c == '？' || c == ':' || c == '：'

/-- After a wake word: end of string or a boundary character. -/
def boundaryOk : List Char → Bool
  | [] => true
  | c :: _ => wakeBoundary c

/-- `/^(?:ボット|ぼっと|おーい)(?:\s|[、,。.!！?？:：]|$)/.test`. -/
def headWake (l : List Char) : Bool :=
  wakeWords.any fun w =>
    match stripLit w l with
    | some r => boundaryOk r
    | none => false

/-- `isTriggeredText` of the source: normalize, then mention-anywhere or
wake-word-at-head. -/
def isTriggeredText (text : String) : Bool :=
  let t := normChars text
  anywhereKai t || headWake t

/-! ## Trigger stripping -/

theorem stripPats_length {ps : List (Char → Bool)} {l r : List Char}
    (h : stripPats ps l = some r) : r.length + ps.length = l.length := by
  induction ps generalizing l with
  | nil => simp [stripPats] at h; simp [h]
  | cons p ps ih =>
    cases l with
    | nil => simp [stripPats] at h
    | cons c cs =>
      simp only [stripPats] at h
      split at h
      · have := ih h; simp [List.length_cons]; omega
      · exact absurd h (by simp)

theorem dropWhile_length_le (p : Char → Bool) (l : List Char) :
    (l.dropWhile p).length ≤ l.length := by
  induction l with
  | nil => simp
  | cons c cs ih =>
    rw [List.dropWhile_cons]
    split
    · simp only [List.length_cons]; omega
    · simp

theorem mentionRest_length {l r : List Char} (h : mentionRest l = some r) :
    r.length < l.length := by
  unfold mentionRest at h
  split at h
  · exact absurd h (by simp)
  · rename_i c cs
    split at h
    · split at h
      · exact absurd h (by simp)
      · rename_i r1 h1
        split at h
        · exact absurd h (by simp)
        · rename_i r2 h2
          have e1 := stripPats_length h1
          have e2 := stripPats_length h2
          have d1 := dropWhile_length_le jsWs cs
          have d2 := dropWhile_length_le jsWs r1
          have hr : r2 = r := by injection h
          subst hr
          simp only [kaiPats, botPats, List.length_cons, List.length_nil] at e1 e2
          simp only [List.length_cons]
          omega
    · exact absurd h (by simp)

/-- `.replace(/[@＠]\s*KAI\s*bot\s*/gi, " ")`: replace every occurrence
(including the greedy trailing whitespace) with one space, scanning left to
right and resuming after each match.  The fuel argument (initially the input
length) only bounds the recursion: every step consumes at least one
character. -/
def replaceMentionGo : Nat → List Char → List Char
  | 0, _ => []
  | _, [] => []
  | fuel + 1, c :: cs =>
    match mentionRest (c :: cs) with
    | some r => ' ' :: replaceMentionGo fuel (r.dropWhile jsWs)
    | none => c :: replaceMentionGo fuel cs

def replaceMentionAll (l : List Char) : List Char :=
  replaceMentionGo l.length l

/-- `.replace(/^(?:ボット|ぼっと|おーい)(?:\s|[、,。.!！?？:：])*/i, " ")`:
one anchored replacement of a wake word and the following boundary run. -/
def stripHeadWake (l : List Char) : List Char :=
  match wakeWords.findSome? (fun w => stripLit w l) with
  | some r => ' ' :: r.dropWhile wakeBoundary
  | none => l

/-- `.replace(/\s+/g, " ")`, with a length-bounded fuel argument. -/
def collapseWsGo : Nat → List Char → List Char
  | 0, _ => []
  | _, [] => []
  | fuel + 1, c :: cs =>
    if jsWs c then ' ' :: collapseWsGo fuel (cs.dropWhile jsWs)
    else c :: collapseWsGo fuel cs

def collapseWs (l : List Char) : List Char :=
  collapseWsGo l.length l

/-- `stripTriggerPrefix` of the source. -/
def stripTriggerPrefix (text : String) : String :=
  let t := normChars text
  String.mk (jsTrim (collapseWs (stripHeadWake (replaceMentionAll t))))

/-! ## Trigger detection: specification predicates and matcher correctness -/

/-- A character list matches a list of per-position predicates. -/
def PatsMatch (ps : List (Char → Bool)) (k : List Char) : Prop :=
  List.Forall₂ (fun p c => p c = true) ps k

/-- Spec §4.1: an explicit mention marker (`@` or `＠` followed, modulo
whitespace, by the bot name, case-insensitively) occurs somewhere in the
text. -/
def MentionOccurs (l : List Char) : Prop :=
  ∃ (pre ws1 k ws2 b post : List Char) (a : Char),
    l = pre ++ a :: (ws1 ++ k ++ ws2 ++ b ++ post) ∧
    isAt a = true ∧ (∀ c ∈ ws1, jsWs c = true) ∧ PatsMatch kaiPats k ∧
    (∀ c ∈ ws2, jsWs c = true) ∧ PatsMatch botPats b

/-- Spec §4.1: a wake word stands at the very start and is followed by
whitespace, one of the listed punctuation marks, or the end of the string. -/
def WakeAtHead (l : List Char) : Prop :=
  ∃ w rest, w ∈ wakeWords ∧ l = w ++ rest ∧ boundaryOk rest = true

theorem stripPats_of_patsMatch {ps : List (Char → Bool)} {k : List Char}
    (h : PatsMatch ps k) (r : List Char) : stripPats ps (k ++ r) = some r := by
  induction h with
  | nil => rfl
  | cons hpc _ ih => simpa [stripPats, hpc] using ih

theorem stripPats_some_decomp {ps : List (Char → Bool)} {l r : List Char}
    (h : stripPats ps l = some r) : ∃ k, l = k ++ r ∧ PatsMatch ps k := by
  induction ps generalizing l with
  | nil =>
    refine ⟨[], ?_, List.Forall₂.nil⟩
    simpa [stripPats, eq_comm] using h
  | cons p ps ih =>
    cases l with
    | nil => exact absurd h (by simp [stripPats])
    | cons c cs =>
      simp only [stripPats] at h
      split at h
      · obtain ⟨k, hk, hm⟩ := ih h
        exact ⟨c :: k, by simp [hk], List.Forall₂.cons (by assumption) hm⟩
      · exact absurd h (by simp)

theorem stripLit_self_append (w r : List Char) : stripLit w (w ++ r) = some r := by
  induction w with
  | nil => rfl
  | cons c cs ih => simp [stripLit, ih]

theorem stripLit_some_decomp {w l r : List Char} (h : stripLit w l = some r) :
    l = w ++ r := by
  induction w generalizing l with
  | nil => simpa [stripLit, eq_comm] using h
  | cons c cs ih =>
    cases l with
    | nil => exact absurd h (by simp [stripLit])
    | cons x xs =>
      simp only [stripLit] at h
      split at h
      · rename_i hx
        rw [ih h]
        simp [(show x = c from by simpa using hx)]
      · exact absurd h (by simp)

theorem dropWhile_all_append {p : Char → Bool} {a b : List Char}
    (ha : ∀ c ∈ a, p c = true) (hb : ∀ c r, b = c :: r → p c = false) :
    (a ++ b).dropWhile p = b := by
  induction a with
  | nil =>
    cases b with
    | nil => rfl
    | cons c r => simp [List.dropWhile_cons, hb c r rfl]
  | cons x xs ih =>
    simp only [List.cons_append, List.dropWhile_cons, ha x (by simp)]
    exact ih fun c hc => ha c (by simp [hc])

theorem patsMatch3 {p1 p2 p3 : Char → Bool} {k : List Char}
    (h : PatsMatch [p1, p2, p3] k) :
    ∃ c1 c2 c3, k = [c1, c2, c3] ∧ p1 c1 = true ∧ p2 c2 = true ∧ p3 c3 = true := by
  cases h with
  | cons h1 h' =>
    cases h' with
    | cons h2 h'' =>
      cases h'' with
      | cons h3 h''' =>
        cases h'''
        exact ⟨_, _, _, rfl, h1, h2, h3⟩

theorem ciChar_ws_false {lo hi c : Char} (h : ciChar lo hi c = true)
    (hlo : jsWs lo = false) (hhi : jsWs hi = false) : jsWs c = false := by
  have h2 : c = lo ∨ c = hi := by simpa [ciChar] using h
  rcases h2 with rfl | rfl <;> assumption

theorem mentionRest_some_decomp {l r2 : List Char} (h : mentionRest l = some r2) :
    ∃ (a : Char) (ws1 k ws2 b : List Char),
      l = a :: (ws1 ++ k ++ ws2 ++ b ++ r2) ∧ isAt a = true ∧
      (∀ c ∈ ws1, jsWs c = true) ∧ PatsMatch kaiPats k ∧
      (∀ c ∈ ws2, jsWs c = true) ∧ PatsMatch botPats b := by
  unfold mentionRest at h
  split at h
  · exact absurd h (by simp)
  · rename_i c cs
    split at h
    · rename_i hat
      split at h
      · exact absurd h (by simp)
      · rename_i r1 h1
        split at h
        · exact absurd h (by simp)
        · rename_i r2' h2
          have hr : r2' = r2 := by injection h
          rw [hr] at h2
          obtain ⟨k, hk, hmk⟩ := stripPats_some_decomp h1
          obtain ⟨b, hbb, hmb⟩ := stripPats_some_decomp h2
          refine ⟨c, cs.takeWhile jsWs, k, r1.takeWhile jsWs, b, ?_, hat,
            fun x hx => List.mem_takeWhile_imp hx, hmk,
            fun x hx => List.mem_takeWhile_imp hx, hmb⟩
          have e1 : cs.takeWhile jsWs ++ cs.dropWhile jsWs = cs :=
            List.takeWhile_append_dropWhile jsWs cs
          have e2 : r1.takeWhile jsWs ++ r1.dropWhile jsWs = r1 :=
            List.takeWhile_append_dropWhile jsWs r1
          rw [List.cons_inj_right]
          calc cs = cs.takeWhile jsWs ++ cs.dropWhile jsWs := e1.symm
            _ = cs.takeWhile jsWs ++ (k ++ r1) := by rw [hk]
            _ = cs.takeWhile jsWs ++ (k ++ (r1.takeWhile jsWs ++ r1.dropWhile jsWs)) := by
                rw [e2]
            _ = cs.takeWhile jsWs ++ (k ++ (r1.takeWhile jsWs ++ (b ++ r2))) := by rw [hbb]
            _ = cs.takeWhile jsWs ++ k ++ (r1.takeWhile jsWs) ++ b ++ r2 := by simp
    · exact absurd h (by simp)

theorem mentionRest_isSome_of {a : Char} {ws1 k ws2 b post : List Char}
    (hat : isAt a = true) (h1 : ∀ c ∈ ws1, jsWs c = true) (hk : PatsMatch kaiPats k)
    (h2 : ∀ c ∈ ws2, jsWs c = true) (hb : PatsMatch botPats b) :
    (mentionRest (a :: (ws1 ++ k ++ ws2 ++ b ++ post))).isSome = true := by
  obtain ⟨k1, k2, k3, rfl, hk1, hk2, hk3⟩ := patsMatch3 hk
  obtain ⟨b1, b2, b3, rfl, hb1, hb2, hb3⟩ := patsMatch3 hb
  have harr : ws1 ++ [k1, k2, k3] ++ ws2 ++ [b1, b2, b3] ++ post =
      ws1 ++ ([k1, k2, k3] ++ (ws2 ++ ([b1, b2, b3] ++ post))) := by simp
  rw [harr]
  have hd1 : (ws1 ++ ([k1, k2, k3] ++ (ws2 ++ ([b1, b2, b3] ++ post)))).dropWhile jsWs
      = [k1, k2, k3] ++ (ws2 ++ ([b1, b2, b3] ++ post)) := by
    refine dropWhile_all_append h1 ?_
    intro c r hcr
    have hck : k1 = c := by
      have := congrArg (fun l => l.head?) hcr
      simpa using this
    subst hck
    exact ciChar_ws_false hk1 (by decide) (by decide)
  have hd2 : (ws2 ++ ([b1, b2, b3] ++ post)).dropWhile jsWs = [b1, b2, b3] ++ post := by
    refine dropWhile_all_append h2 ?_
    intro c r hcr
    have hcb : b1 = c := by
      have := congrArg (fun l => l.head?) hcr
      simpa using this
    subst hcb
    exact ciChar_ws_false hb1 (by decide) (by decide)
  simp only [mentionRest]
  rw [if_pos hat, hd1, stripPats_of_patsMatch hk (ws2 ++ ([b1, b2, b3] ++ post))]
  dsimp only
  rw [hd2, stripPats_of_patsMatch hb post]
  rfl

theorem anywhereKai_iff {l : List Char} : anywhereKai l = true ↔ MentionOccurs l := by
  constructor
  · intro h
    induction l with
    | nil => simp [anywhereKai] at h
    | cons c cs ih =>
      rcases Bool.or_eq_true _ _ |>.mp (by simpa [anywhereKai] using h) with h1 | h1
      · obtain ⟨r2, hr2⟩ := Option.isSome_iff_exists.mp h1
        obtain ⟨a, ws1, k, ws2, b, hl, hat, hw1, hmk, hw2, hmb⟩ :=
          mentionRest_some_decomp hr2
        exact ⟨[], ws1, k, ws2, b, r2, a, by simpa using hl, hat, hw1, hmk, hw2, hmb⟩
      · obtain ⟨pre, ws1, k, ws2, b, post, a, hl, rest⟩ := ih h1
        exact ⟨c :: pre, ws1, k, ws2, b, post, a, by simp [hl], rest⟩
  · rintro ⟨pre, ws1, k, ws2, b, post, a, rfl, hat, hw1, hmk, hw2, hmb⟩
    induction pre with
    | nil =>
      have := @mentionRest_isSome_of a ws1 k ws2 b post hat hw1 hmk hw2 hmb
      simp only [anywhereKai, List.nil_append]
      exact Bool.or_eq_true _ _ |>.mpr (Or.inl this)
    | cons x xs ih =>
      simp only [anywhereKai, List.cons_append]
      exact Bool.or_eq_true _ _ |>.mpr (Or.inr ih)

theorem headWake_iff {l : List Char} : headWake l = true ↔ WakeAtHead l := by
  constructor
  · intro h
    obtain ⟨w, hw, hmatch⟩ := List.any_eq_true.mp (by simpa [headWake] using h)
    cases hs : stripLit w l with
    | none => rw [hs] at hmatch; exact absurd hmatch (by simp)
    | some r =>
      rw [hs] at hmatch
      exact ⟨w, r, hw, stripLit_some_decomp hs, hmatch⟩
  · rintro ⟨w, rest, hw, rfl, hb⟩
    refine List.any_eq_true.mpr ⟨w, hw, ?_⟩
    rw [stripLit_self_append]
    exact hb

/-! ## Calendar arithmetic (JS `Date` model)

`toJstDate` adds nine hours to the instant; the `getUTC*` field reads and
`Date.UTC` are modelled with Hinnant's civil-from-days / days-from-civil
algorithms over the proleptic Gregorian calendar, which is exactly the ES
specification's day-number arithmetic. -/

def msPerDay : Int := 86400000

def msPerHour : Int := 3600000

def msPerMinute : Int := 60000

/-- `toJstDate` shifts by nine hours (UTC+9). -/
def jstOffsetMs : Int := 32400000

/-- Epoch day number to civil date `(year, month, day)`, 1-based month. -/
def civilFromDays (z0 : Int) : Int × Int × Int :=
  let z := z0 + 719468
  let era := Int.ediv z 146097
  let doe := z - era * 146097
  let yoe := Int.ediv (doe - Int.ediv doe 1460 + Int.ediv doe 36524 - Int.ediv doe 146096) 365
  let y := yoe + era * 400
  let doy := doe - (365 * yoe + Int.ediv yoe 4 - Int.ediv yoe 100)
  let mp := Int.ediv (5 * doy + 2) 153
  let d := doy - Int.ediv (153 * mp + 2) 5 + 1
  let m := if mp < 10 then mp + 3 else mp - 9
  (y + (if m ≤ 2 then 1 else 0), m, d)

/-- Civil date to epoch day number, 1-based month; linear in `d`, like the ES
`MakeDay` operation. -/
def daysFromCivil (y m d : Int) : Int :=
  let y1 := y - (if m ≤ 2 then 1 else 0)
  let era := Int.ediv y1 400
  let yoe := y1 - era * 400
  let mp := if m > 2 then m - 3 else m + 9
  let doy := Int.ediv (153 * mp + 2) 5 + d - 1
  let doe := yoe * 365 + Int.ediv yoe 4 - Int.ediv yoe 100 + doy
  era * 146097 + doe - 719468

/-- `Date.UTC(y, m-1, d, hh, mm)` with a 1-based month argument. -/
def jsDateUTC (y m d hh mm : Int) : Int :=
  daysFromCivil y m d * msPerDay + hh * msPerHour + mm * msPerMinute

/-- `setUTCFullYear(ny)`: keep month, day and time-of-day, replace the year
(normalizing like `MakeDay` does). -/
def jsSetUTCFullYear (ms ny : Int) : Int :=
  let c := civilFromDays (Int.ediv ms msPerDay)
  daysFromCivil ny c.2.1 c.2.2 * msPerDay + Int.emod ms msPerDay

def pad2 (n : Nat) : String :=
  if n < 10 then "0" ++ toString n else toString n

/-- `formatJst`: render a (JST-shifted) ms instant as `YYYY-MM-DD HH:MM` from
its `getUTC*` fields. -/
def formatJst (ms : Int) : String :=
  let c := civilFromDays (Int.ediv ms msPerDay)
  let rem := Int.emod ms msPerDay
  let hh := Int.ediv rem msPerHour
  let mm := Int.emod (Int.ediv rem msPerMinute) 60
  toString c.1 ++ "-" ++ pad2 c.2.1.toNat ++ "-" ++ pad2 c.2.2.toNat ++ " " ++
    pad2 hh.toNat ++ ":" ++ pad2 mm.toNat

/-! ## Date/time phrase matchers (`parseTimeFromText`, `parseDueAtFromText`)

Each JS regex of the source becomes a bespoke scanner: leftmost position
first, and at a position the JS backtracking order (`\d{1,2}` prefers two
digits; the one-digit retry can only succeed when the follow-up class does
not contain digits, which holds for every separator used here). -/

def isDigit (c : Char) : Bool := '0' ≤ c && c ≤ '9'

def digitVal (c : Char) : Int := (c.toNat : Int) - 48

def twoDigitVal (c1 c2 : Char) : Int := digitVal c1 * 10 + digitVal c2

def isDateSep (c : Char) : Bool := c == '/' || c == '-'

def isColon (c : Char) : Bool := c == ':' || c == '：'

/-- `(\d{1,2})` greedy, no constraint after the digits. -/
def matchNum12 : List Char → Option (Int × List Char)
  | c1 :: c2 :: rest =>
    if isDigit c1 then
      if isDigit c2 then some (twoDigitVal c1 c2, rest)
      else some (digitVal c1, c2 :: rest)
    else none
  | [c1] => if isDigit c1 then some (digitVal c1, []) else none
  | [] => none

/-- `(\d{1,2})S` for a separator class `S` disjoint from digits: prefer two
digits, falling back to one; the fallback fails whenever the second character
is a digit (a digit is never a separator). -/
def matchNumThen (sep : Char → Bool) : List Char → Option (Int × List Char)
  | c1 :: c2 :: c3 :: rest =>
    if isDigit c1 then
      if isDigit c2 then
        if sep c3 then some (twoDigitVal c1 c2, rest) else none
      else if sep c2 then some (digitVal c1, c3 :: rest)
      else none
    else none
  | [c1, c2] => if isDigit c1 && sep c2 then some (digitVal c1, []) else none
  | _ => none

/-- `\s*L` for a non-whitespace literal `L`: the greedy run needs no
backtracking. -/
def matchWsThen (lit : Char) (l : List Char) : Option (List Char) :=
  match l.dropWhile jsWs with
  | c :: rest => if c == lit then some rest else none
  | [] => none

/-- `(\d{1,2})\s*L` for a literal `L` that is neither a digit nor
whitespace. -/
def matchNumWsLit (lit : Char) : List Char → Option (Int × List Char)
  | c1 :: rest1 =>
    if isDigit c1 then
      match rest1 with
      | c2 :: rest2 =>
        if isDigit c2 then
          match matchWsThen lit rest2 with
          | some r => some (twoDigitVal c1 c2, r)
          | none => none
        else
          match matchWsThen lit rest1 with
          | some r => some (digitVal c1, r)
          | none => none
      | [] => none
    else none
  | [] => none

/-- `(20\d{2})[\/\-](\d{1,2})[\/\-](\d{1,2})` at one position. -/
def matchYMDAt : List Char → Option (Int × Int × Int)
  | '2' :: '0' :: c3 :: c4 :: sep :: rest =>
    if isDigit c3 && isDigit c4 && isDateSep sep then
      match matchNumThen isDateSep rest with
      | some (m, r1) =>
        match matchNum12 r1 with
        | some (d, _) => some (2000 + twoDigitVal c3 c4, m, d)
        | none => none
      | none => none
    else none
  | _ => none

def findYMD : List Char → Option (Int × Int × Int)
  | [] => none
  | c :: cs =>
    match matchYMDAt (c :: cs) with
    | some v => some v
    | none => findYMD cs

/-- `(\d{1,2})[\/\-](\d{1,2})` at one position. -/
def matchMDAt (l : List Char) : Option (Int × Int) :=
  match matchNumThen isDateSep l with
  | some (m, r1) =>
    match matchNum12 r1 with
    | some (d, _) => some (m, d)
    | none => none
  | none => none

def findMD : List Char → Option (Int × Int)
  | [] => none
  | c :: cs =>
    match matchMDAt (c :: cs) with
    | some v => some v
    | none => findMD cs

/-- `(\d{1,2})\s*月\s*(\d{1,2})\s*日` at one position (the trailing
`\s*` before `日` lives inside `matchNumWsLit`). -/
def matchMoonAt (l : List Char) : Option (Int × Int) :=
  match matchNumWsLit '月' l with
  | some (m, r) =>
    match matchNumWsLit '日' (r.dropWhile jsWs) with
    | some (d, _) => some (m, d)
    | none => none
  | none => none

def findMoon : List Char → Option (Int × Int)
  | [] => none
  | c :: cs =>
    match matchMoonAt (c :: cs) with
    | some v => some v
    | none => findMoon cs

/-- `/(\d{1,2})[:：](\d{2})/` searched leftmost. -/
def findHM : List Char → Option (Int × Int)
  | [] => none
  | c :: cs =>
    match
      (match matchNumThen isColon (c :: cs) with
       | some (h, r) =>
         match r with
         | d1 :: d2 :: _ =>
           if isDigit d1 && isDigit d2 then some (h, twoDigitVal d1 d2) else none
         | _ => none
       | none => none) with
    | some v => some v
    | none => findHM cs

/-- `/(\d{1,2})\s*時(?:\s*(\d{1,2})\s*分?)?/` searched leftmost; a missing
minutes group means zero. -/
def findHourJp : List Char → Option (Int × Int)
  | [] => none
  | c :: cs =>
    match matchNumWsLit '時' (c :: cs) with
    | some (h, r) =>
      match matchNum12 (r.dropWhile jsWs) with
      | some (mv, _) => some (h, mv)
      | none => some (h, 0)
    | none => findHourJp cs

/-- Literal substring test (`/lit/.test`). -/
def containsLit (w : List Char) : List Char → Bool
  | [] => (stripLit w []).isSome
  | c :: cs => (stripLit w (c :: cs)).isSome || containsLit w cs

/-- `/(20\d{2})/.test`. -/
def hasYear4 : List Char → Bool
  | [] => false
  | c :: cs =>
    (match c :: cs with
     | '2' :: '0' :: c3 :: c4 :: _ => isDigit c3 && isDigit c4
     | _ => false) ||
    hasYear4 cs

/-- `parseTimeFromText` of the source: `HH:MM`, then `H時M分`, then the fixed
keyword times. -/
def parseTimeFromText (l : List Char) : Option (Int × Int) :=
  match findHM l with
  | some hm => some hm
  | none =>
    match findHourJp l with
    | some hm => some hm
    | none =>
      if containsLit ['正', '午'] l then some (12, 0)
      else if containsLit ['今', '夜'] l then some (21, 0)
      else none

/-- `parseDueAtFromText` of the source.  The source reads `toJstDate(now)`
only through its civil-date fields — directly, or shifted by exactly one or
two whole days — so every use is routed through the JST epoch-day number
`nowDays`. -/
def parseDueAtFromText (text : String) (nowMs : Int) : String :=
  let t := normChars text
  if t = [] then ""
  else
    let nowDays := Int.ediv (nowMs + jstOffsetMs) msPerDay
    let nowCiv := civilFromDays nowDays
    let ymd : Option (Int × Int × Int) :=
      match findYMD t with
      | some v => some v
      | none =>
        match findMD t with
        | some (m, d) => some (nowCiv.1, m, d)
        | none =>
          match findMoon t with
          | some (m, d) => some (nowCiv.1, m, d)
          | none =>
            if containsLit ['明', '日'] t then
              let c := civilFromDays (nowDays + 1)
              some (c.1, c.2.1, c.2.2)
            else if containsLit ['明', '後', '日'] t then
              let c := civilFromDays (nowDays + 2)
              some (c.1, c.2.1, c.2.2)
            else if containsLit ['今', '日'] t || containsLit ['本', '日'] t then
              some (nowCiv.1, nowCiv.2.1, nowCiv.2.2)
            else none
    match ymd with
    | none => ""
    | some (y, m, d) =>
      let tm := (parseTimeFromText t).getD (18, 0)
      let dueMs := jsDateUTC y m d tm.1 tm.2
      let dueMs2 :=
        if hasYear4 t then dueMs
        else
          let nowDateOnly := daysFromCivil nowCiv.1 nowCiv.2.1 nowCiv.2.2 * msPerDay
          let dueDateOnly := daysFromCivil y m d * msPerDay
          if dueDateOnly < nowDateOnly then jsSetUTCFullYear dueMs (y + 1) else dueMs
      formatJst dueMs2

example :
    parseDueAtFromText "1/10 18:00" (daysFromCivil 2025 12 20 * msPerDay - jstOffsetMs) =
      "2026-01-10 18:00" := by decide

example :
    parseDueAtFromText "4/10" (daysFromCivil 2025 3 1 * msPerDay - jstOffsetMs) =
      "2025-04-10 18:00" := by decide

example :
    parseDueAtFromText "2026-01-10 18:00" (daysFromCivil 2025 12 20 * msPerDay) =
      "2026-01-10 18:00" := by decide

/-! ## Pending actions (`_pendingBySpace`, `getPending`, `setPending`,
`clearPending`)

The source's `Map` is keyed by the space identifier alone; the user binding
lives inside the stored entry and is only consulted on read and clear. -/

structure PendingInfo where
  action : String
deriving Repr, DecidableEq

structure PendingEntry where
  action : String
  userId : String
  expiresAt : Int
deriving Repr, DecidableEq

def PendingStore := String → Option PendingEntry

def emptyPending : PendingStore := fun _ => none

/-- `getPending`: lazy-expiry read.  Returns the visible entry and the store
after the expiry cleanup (the source deletes an expired entry in place). -/
def getPending (st : PendingStore) (spaceId userId : String) (nowMs : Int) :
    Option PendingEntry × PendingStore :=
  if spaceId = "" then (none, st)
  else
    match st spaceId with
    | none => (none, st)
    | some p =>
      if nowMs > p.expiresAt then
        (none, fun s => if s = spaceId then none else st s)
      else if p.userId ≠ "" ∧ userId ≠ "" ∧ p.userId ≠ userId then (none, st)
      else (some p, st)

/-- `setPending` with the source's default five-minute TTL. -/
def setPending (st : PendingStore) (spaceId userId : String) (pending : PendingInfo)
    (nowMs : Int) (ttlMs : Int := 5 * 60 * 1000) : PendingStore :=
  if spaceId = "" then st
  else fun s =>
    if s = spaceId then some ⟨pending.action, userId, nowMs + ttlMs⟩ else st s

def clearPending (st : PendingStore) (spaceId userId : String) : PendingStore :=
  if spaceId = "" then st
  else
    match st spaceId with
    | none => st
    | some p =>
      if p.userId ≠ "" ∧ userId ≠ "" ∧ p.userId ≠ userId then st
      else fun s => if s = spaceId then none else st s

/-! ## LINE webhook text-message routing -/

/-- `/^(キャンセル|やめる|中止)$/i`: the anchors make this an exact match. -/
def isCancelWord (l : List Char) : Bool :=
  l == ("キャンセル".data) || l == ("やめる".data) || l == ("中止".data)

/-- The keyword gate of the triggered follow-up path (line 1475):
`/(削除|消して|消す|取り消し|完了|終わった|再開|更新|変更|修正|追加|作成|一覧)/`. -/
def hasActionKeyword (l : List Char) : Bool :=
  containsLit ("削除".data) l || containsLit ("消して".data) l ||
  containsLit ("消す".data) l || containsLit ("取り消し".data) l ||
  containsLit ("完了".data) l || containsLit ("終わった".data) l ||
  containsLit ("再開".data) l || containsLit ("更新".data) l ||
  containsLit ("変更".data) l || containsLit ("修正".data) l ||
  containsLit ("追加".data) l || containsLit ("作成".data) l ||
  containsLit ("一覧".data) l

inductive LineRoute where
  | ignored
  | cancelled
  | menu
  | newCommand
  | slotFill (action : String)
deriving Repr, DecidableEq

/-- The control-flow skeleton of the LINE webhook text-message handler
(`src/index.js` lines 1404-1584): which path consumes an inbound text
message.  `slotFill a` covers every sub-branch of the follow-up path for
pending action `a` (slot value accepted, re-prompt on empty input, narrowing
on ambiguity); `newCommand` is the fall-through to template/regex/LLM
parsing; store mutations and outbound messages are not needed to settle the
routing claims and are omitted. -/
def lineTextRoute (st : PendingStore) (spaceId userId : String) (rawText : String)
    (nowMs : Int) : LineRoute :=
  if isTriggeredText rawText = false then
    if spaceId ≠ "" ∧ userId ≠ "" then
      match (getPending st spaceId userId nowMs).1 with
      | some p =>
        let followText := normChars rawText
        if isCancelWord followText then .cancelled
        else if p.action = "delete_task" then .slotFill "delete_task"
        else if p.action = "delete_project" then .slotFill "delete_project"
        else .ignored
      | none => .ignored
    else .ignored
  else
    let stripped := (stripTriggerPrefix rawText).data
    if stripped = [] then .menu
    else
      match (if spaceId ≠ "" ∧ userId ≠ "" then (getPending st spaceId userId nowMs).1
             else none) with
      | some p =>
        if hasActionKeyword stripped = false then
          let followText := jsTrim (stripped.map zenkakuToSpace)
          if isCancelWord followText then .cancelled
          else if p.action = "create_task" ∨ p.action = "create_project" ∨
              p.action = "delete_task" ∨ p.action = "delete_project" then
            .slotFill p.action
          else .newCommand
        else .newCommand
      | none => .newCommand

example :
    lineTextRoute (setPending emptyPending "S" "U" ⟨"create_task"⟩ 0) "S" "U"
      "@KAI bot タスク一覧" 1000 = LineRoute.newCommand := by decide

example :
    lineTextRoute (setPending emptyPending "S" "U" ⟨"create_task"⟩ 0) "S" "U"
      "議事録" 1000 = LineRoute.ignored := by decide

example :
    lineTextRoute (setPending emptyPending "S" "U" ⟨"create_task"⟩ 0) "S" "U"
      "@KAI bot 議事録" 1000 = LineRoute.slotFill "create_task" := by decide

example :
    lineTextRoute (setPending emptyPending "S" "U" ⟨"delete_task"⟩ 0) "S" "U"
      "議事録" 301000 = LineRoute.ignored := by decide

example :
    lineTextRoute (setPending emptyPending "S" "U" ⟨"delete_task"⟩ 0) "S" "U"
      "議事録" 1000 = LineRoute.slotFill "delete_task" := by decide

/-! ## Query helpers (`sanitizeQuery`, `splitQueries`, `extractQuotedText`) -/

/-- `toLowerCase()` restricted to ASCII case mapping (the only cased
characters reaching these comparisons: statuses, ids, and Latin title
fragments). -/
def lowerChar (c : Char) : Char :=
  if 'A' ≤ c ∧ c ≤ 'Z' then Char.ofNat (c.toNat + 32) else c

def lowerStr (s : String) : String := String.mk (s.data.map lowerChar)

def isQuerySep (c : Char) : Bool := c == '、' || c == ',' || c == '，' || c == '\n'

def splitOnSeps : List Char → List (List Char)
  | [] => [[]]
  | c :: cs =>
    if isQuerySep c then [] :: splitOnSeps cs
    else
      match splitOnSeps cs with
      | g :: gs => (c :: g) :: gs
      | [] => [[c]]

/-- `splitQueries`: split on `、 , ， \n`, normalize each part, drop
empties. -/
def splitQueries (s : String) : List String :=
  ((splitOnSeps s.data).map fun g => String.mk (jsTrim (g.map zenkakuToSpace))).filter
    (fun x => x ≠ "")

def isOpenQuote (c : Char) : Bool := c == '「' || c == '『' || c == '"' || c == '“'

def isCloseQuote (c : Char) : Bool := c == '」' || c == '』' || c == '"' || c == '”'

/-- What `.` matches in a JS regex without the `s` flag: anything but a line
terminator. -/
def isDotChar (c : Char) : Bool :=
  !(c == '\n' || c == '\r' || c == ' ' || c == ' ')

/-- Anchored `^[「『"“](.+)[」』"”]$` → `$1`: strip one wrapping quote pair
when the greedy dot run can cover the interior. -/
def stripWrappingQuotes (l : List Char) : List Char :=
  match l with
  | [] => []
  | c :: cs =>
    if isOpenQuote c then
      match cs.getLast? with
      | some lastc =>
        let mid := cs.dropLast
        if isCloseQuote lastc ∧ mid ≠ [] ∧ mid.all isDotChar then mid else l
      | none => l
    else l

def particleWords : List (List Char) :=
  [("を".data), ("は".data), ("が".data), ("の".data), ("です".data), ("だ".data),
   ("よ".data), ("ね".data)]

/-- Does `(を|は|が|の|です|だ|よ|ね)\s*$` match starting here (a particle
followed by whitespace only, up to the end)? -/
def particleEndHere (l : List Char) : Bool :=
  particleWords.any fun w =>
    match stripLit w l with
    | some r => r.all jsWs
    | none => false

/-- `.replace(/(を|は|が|の|です|だ|よ|ね)\s*$/g, "")`: one leftmost match of
a trailing particle, removed together with the whitespace after it. -/
def stripTrailingParticle : List Char → List Char
  | [] => []
  | c :: cs => if particleEndHere (c :: cs) then [] else c :: stripTrailingParticle cs

/-- `sanitizeQuery` of the source. -/
def sanitizeQuery (s : String) : String :=
  let t := normChars s
  if t = [] then ""
  else String.mk (jsTrim (stripTrailingParticle (stripWrappingQuotes t)))

/-- The lazy interior of `[「『"“](.+?)[」』"”]`: at least one `.` character,
then the first closing quote. -/
def lazyQuotedAux (acc : List Char) : List Char → Option (List Char)
  | [] => none
  | c :: cs =>
    if isCloseQuote c then some acc.reverse
    else if isDotChar c then lazyQuotedAux (c :: acc) cs
    else none

def lazyQuotedAt : List Char → Option (List Char)
  | [] => none
  | c :: cs => if isDotChar c then lazyQuotedAux [c] cs else none

def quotedSearch : List Char → Option (List Char)
  | [] => none
  | c :: cs =>
    if isOpenQuote c then
      match lazyQuotedAt cs with
      | some content => some content
      | none => quotedSearch cs
    else quotedSearch cs

/-- `extractQuotedText`: leftmost `[「『"“](.+?)[」』"”]` match, trimmed. -/
def extractQuotedText (s : String) : String :=
  match quotedSearch s.data with
  | some content => String.mk (jsTrim content)
  | none => ""

example : extractQuotedText "「会議」を明日に変更" = "会議" := by decide
example : sanitizeQuery "「会議」" = "会議" := by decide
example : sanitizeQuery "会議を" = "会議" := by decide
example : splitQueries "a、b, c" = ["a", "b", "c"] := by decide

/-! ## Sheet store: tasks and projects -/

structure TaskRow where
  task_id : String := ""
  project_id : String := ""
  title : String := ""
  description : String := ""
  status : String := ""
  due_at : String := ""
  created_at : String := ""
  done_at : String := ""
  created_by : String := ""
  updated_at : String := ""
  deleted_at : String := ""
  group_id : String := ""
deriving Repr, DecidableEq

structure ProjectRow where
  project_id : String := ""
  title : String := ""
  description : String := ""
  status : String := ""
  due_at : String := ""
  created_at : String := ""
  deleted_at : String := ""
  updated_at : String := ""
  created_by : String := ""
  group_id : String := ""
deriving Repr, DecidableEq

/-- Row scan of `sheetsGetTasksBySpace`: keep rows of the space, skip
soft-deleted rows unless `includeDeleted`, and stop after pushing the row
that reaches `limit` (the source breaks after the push). -/
def tasksFetchGo (sid : List Char) (limit : Nat) (includeDeleted : Bool) :
    List TaskRow → Nat → List TaskRow
  | [], _ => []
  | r :: rs, cnt =>
    if jsTrim r.group_id.data = sid then
      if includeDeleted = false ∧ lowerStr r.status = "deleted" then
        tasksFetchGo sid limit includeDeleted rs cnt
      else
        r :: (if limit ≤ cnt + 1 then [] else tasksFetchGo sid limit includeDeleted rs (cnt + 1))
    else tasksFetchGo sid limit includeDeleted rs cnt

def sheetsGetTasksBySpace (rows : List TaskRow) (spaceId : String) (limit : Nat := 20)
    (includeDeleted : Bool := false) : List TaskRow :=
  tasksFetchGo (jsTrim spaceId.data) limit includeDeleted rows 0

def projectsFetchGo (sid : List Char) (limit : Nat) (includeDeleted : Bool) :
    List ProjectRow → Nat → List ProjectRow
  | [], _ => []
  | r :: rs, cnt =>
    if jsTrim r.group_id.data = sid then
      if includeDeleted = false ∧ lowerStr r.status = "deleted" then
        projectsFetchGo sid limit includeDeleted rs cnt
      else
        r :: (if limit ≤ cnt + 1 then []
              else projectsFetchGo sid limit includeDeleted rs (cnt + 1))
    else projectsFetchGo sid limit includeDeleted rs cnt

def sheetsGetProjectsBySpace (rows : List ProjectRow) (spaceId : String)
    (limit : Nat := 50) (includeDeleted : Bool := false) : List ProjectRow :=
  projectsFetchGo (jsTrim spaceId.data) limit includeDeleted rows 0

/-- `findTasksByQuery`: normalize the query; an exact id hit on the fetched
live rows short-circuits to a singleton; otherwise a case-insensitive title
substring filter. -/
def findTasksByQuery (rows : List TaskRow) (spaceId query : String)
    (limit : Nat := 200) : List TaskRow :=
  let q := normalizeText query
  if q = "" then []
  else
    let tasks := sheetsGetTasksBySpace rows spaceId limit false
    match tasks.find? (fun t => t.task_id == q) with
    | some t => [t]
    | none =>
      let low := lowerStr q
      tasks.filter fun t => containsLit low.data (lowerStr t.title).data

def findProjectsByQuery (rows : List ProjectRow) (spaceId query : String)
    (limit : Nat := 200) : List ProjectRow :=
  let q := normalizeText query
  if q = "" then []
  else
    let projects := sheetsGetProjectsBySpace rows spaceId limit false
    match projects.find? (fun p => p.project_id == q) with
    | some p => [p]
    | none =>
      let low := lowerStr q
      projects.filter fun p => containsLit low.data (lowerStr p.title).data

structure TaskPatch where
  title : Option String := none
  description : Option String := none
  status : Option String := none
  due_at : Option String := none
  done_at : Option String := none
  project_id : Option String := none
  deleted_at : Option String := none
  updated_at : Option String := none
deriving Repr

/-- The `setCell` writes of `sheetsUpdateTask` on the located row, with every
column present in the header; `updated_at` is stamped with the current ISO
time when the patch does not carry one. -/
def applyTaskPatch (r : TaskRow) (p : TaskPatch) (nowIso : String) : TaskRow :=
  { r with
    title := p.title.getD r.title
    description := p.description.getD r.description
    status := p.status.getD r.status
    due_at := p.due_at.getD r.due_at
    done_at := p.done_at.getD r.done_at
    project_id := p.project_id.getD r.project_id
    deleted_at := p.deleted_at.getD r.deleted_at
    updated_at := p.updated_at.getD nowIso }

/-- `sheetsUpdateTask`: `sheetsFindRowById` compares the id column and the
target id trimmed, over all rows; the first hit is patched in place.  A
missing id throws in the source (aborting the event with the store
untouched), modelled as `none`. -/
def sheetsUpdateTask (rows : List TaskRow) (taskId : String) (p : TaskPatch)
    (nowIso : String) : Option (List TaskRow) :=
  match rows with
  | [] => none
  | r :: rs =>
    if jsTrim r.task_id.data = jsTrim taskId.data then
      some (applyTaskPatch r p nowIso :: rs)
    else (sheetsUpdateTask rs taskId p nowIso).map (r :: ·)

/-! ## Command objects and executors -/

/-- A loosely-typed JS command object: each slot is present (`some`) or
absent (`none`). -/
structure JsObj where
  action : Option String := none
  next_action : Option String := none
  target_type : Option String := none
  question : Option String := none
  task_id : Option String := none
  project_id : Option String := none
  title : Option String := none
  new_title : Option String := none
  description : Option String := none
  due_at : Option String := none
  status : Option String := none
  project_title : Option String := none
  query : Option String := none
deriving Repr, DecidableEq

/-- JS `a || b` on possibly-absent strings: absent and empty fall through. -/
def jsOr (a b : Option String) : Option String :=
  match a with
  | some s => if s = "" then b else some s
  | none => b

/-- `String(x || "")`. -/
def jsStr (a : Option String) : String := a.getD ""

/-- The `complete_task` executor branch of the LINE handler: resolve
`cmd.task_id || cmd.query || cmd.title`; mutate only on a unique match. -/
def completeTaskExec (rows : List TaskRow) (spaceId : String) (cmd : JsObj)
    (nowIso : String) : List TaskRow :=
  let q := jsStr (jsOr (jsOr cmd.task_id cmd.query) cmd.title)
  if q = "" then rows
  else
    match findTasksByQuery rows spaceId q 200 with
    | [m] =>
      (sheetsUpdateTask rows m.task_id
          { status := some "done", done_at := some nowIso } nowIso).getD rows
    | _ => rows

/-- The per-item loop of the `delete_task` executor: each item is resolved
against the store as left by the previous item; only a unique match is
soft-deleted. -/
def deleteItemsGo (spaceId nowIso : String) : List String → List TaskRow → List TaskRow
  | [], rows => rows
  | item :: rest, rows =>
    let rows2 :=
      match findTasksByQuery rows spaceId item 200 with
      | [m] =>
        (sheetsUpdateTask rows m.task_id
            { status := some "deleted", deleted_at := some nowIso } nowIso).getD rows
      | _ => rows
    deleteItemsGo spaceId nowIso rest rows2

/-- The `delete_task` executor branch (non-empty query path):
`splitQueries(q).map(sanitizeQuery).filter(Boolean)` then the item loop. -/
def deleteTasksExec (rows : List TaskRow) (spaceId q nowIso : String) : List TaskRow :=
  let items := ((splitQueries q).map sanitizeQuery).filter (fun x => x ≠ "")
  deleteItemsGo spaceId nowIso items rows

/-! ## Matchers for `regexQuickParse`

Each matcher implements one JS regex of the source with JS semantics:
leftmost start position, alternatives in their written order, greedy or lazy
quantifiers as written, with backtracking only where a shorter greedy run
could change the outcome (noted case by case). -/

def asciiUpper (c : Char) : Char :=
  if 'a' ≤ c ∧ c ≤ 'z' then Char.ofNat (c.toNat - 32) else c

/-- Per-character predicates for a case-insensitive ASCII literal. -/
def ciPats (s : String) : List (Char → Bool) :=
  s.data.map fun c => ciChar c (asciiUpper c)

/-- Search every position with a head matcher. -/
def searchB (f : List Char → Bool) : List Char → Bool
  | [] => f []
  | c :: cs => f (c :: cs) || searchB f cs

/-- `/w/i.test` for an ASCII word `w`. -/
def containsCI (w : String) (l : List Char) : Bool :=
  searchB (fun x => (stripPats (ciPats w) x).isSome) l

/-- `/タスク一覧|list\s*tasks/i.test`. -/
def testListTasks (l : List Char) : Bool :=
  searchB
    (fun x =>
      (stripLit ("タスク一覧".data) x).isSome ||
      (match stripPats (ciPats "list") x with
       | some r => (stripPats (ciPats "tasks") (r.dropWhile jsWs)).isSome
       | none => false))
    l

/-- `/プロジェクト一覧|list\s*projects/i.test`. -/
def testListProjects (l : List Char) : Bool :=
  searchB
    (fun x =>
      (stripLit ("プロジェクト一覧".data) x).isSome ||
      (match stripPats (ciPats "list") x with
       | some r => (stripPats (ciPats "projects") (r.dropWhile jsWs)).isSome
       | none => false))
    l

/-- `/プロジェクト|project/i.test`. -/
def testProjectWord (l : List Char) : Bool :=
  containsLit ("プロジェクト".data) l || containsCI "project" l

/-- `/(完了|終わった|終わりました|済んだ|done)/i.test`. -/
def testDoneWords (l : List Char) : Bool :=
  containsLit ("完了".data) l || containsLit ("終わった".data) l ||
  containsLit ("終わりました".data) l || containsLit ("済んだ".data) l || containsCI "done" l

/-- `/(タスク完了|完了|終わった|終わりました|済んだ|done)/i.test`. -/
def testCompleteWords (l : List Char) : Bool :=
  containsLit ("タスク完了".data) l || testDoneWords l

/-- `/(再開|未完了|戻す|reopen)/i.test`. -/
def testReopenWords (l : List Char) : Bool :=
  containsLit ("再開".data) l || containsLit ("未完了".data) l ||
  containsLit ("戻す".data) l || containsCI "reopen" l

/-- `/(タスク再開|再開|未完了|戻す|reopen)/i.test`. -/
def testReopenWords2 (l : List Char) : Bool :=
  containsLit ("タスク再開".data) l || testReopenWords l

/-- `/(削除|消して|消す|取り消し|delete)/i.test`. -/
def testDeleteWords (l : List Char) : Bool :=
  containsLit ("削除".data) l || containsLit ("消して".data) l ||
  containsLit ("消す".data) l || containsLit ("取り消し".data) l || containsCI "delete" l

/-- `@?KAI\s*bot` (case-insensitive, optional `@` tried first). -/
def optAtKaiBot (l : List Char) : Option (List Char) :=
  let core := fun (x : List Char) =>
    match stripPats (ciPats "kai") x with
    | some r => stripPats (ciPats "bot") (r.dropWhile jsWs)
    | none => none
  match l with
  | c :: cs =>
    if c == '@' then
      match core cs with
      | some r => some r
      | none => core (c :: cs)
    else core (c :: cs)
  | [] => none

/-- Global alternation replace: at each position try the alternatives in
order; on a match emit the replacement and resume after the consumed
characters.  Every alternative consumes at least one character, so the input
length bounds the recursion (the fuel). -/
def replaceAllGo (alts : List (List Char → Option (List Char))) (repl : List Char) :
    Nat → List Char → List Char
  | 0, _ => []
  | _, [] => []
  | fuel + 1, c :: cs =>
    match alts.findSome? (fun f => f (c :: cs)) with
    | some r => repl ++ replaceAllGo alts repl fuel r
    | none => c :: replaceAllGo alts repl fuel cs

def replaceAllAlts (alts : List (List Char → Option (List Char))) (repl : List Char)
    (l : List Char) : List Char :=
  replaceAllGo alts repl l.length l

/-- `(おーい|ボット|@?KAI\s*bot)` — the trigger-word removal alternatives. -/
def triggerAlts : List (List Char → Option (List Char)) :=
  [stripLit ("おーい".data), stripLit ("ボット".data), optAtKaiBot]

/-- `(を|は|が|の|です|だ|よ|ね)$` matched here: a particle that is the whole
remainder. -/
def particleExactEndHere (l : List Char) : Bool :=
  particleWords.any fun w =>
    match stripLit w l with
    | some r => r == ([] : List Char)
    | none => false

/-- `.replace(/(を|は|が|の|です|だ|よ|ね)$/g, repl)`: at most one (leftmost)
match, which necessarily extends to the end. -/
def replaceParticleEnd (repl : List Char) : List Char → List Char
  | [] => []
  | c :: cs =>
    if particleExactEndHere (c :: cs) then repl else c :: replaceParticleEnd repl cs

/-- `extractQueryFromText`: normalize, apply each removal pattern (each one a
global replace by a single space), collapse whitespace, and discard residues
shorter than two characters. -/
def extractQueryFromText (s : List Char) (removers : List (List Char → List Char)) :
    List Char :=
  let t := jsTrim (s.map zenkakuToSpace)
  if t = [] then []
  else
    let t2 := removers.foldl (fun acc f => f acc) t
    let t3 := jsTrim (collapseWs t2)
    if t3.length < 2 then [] else t3

/-- `[0-9a-z]` under the `i` flag: ASCII alphanumerics. -/
def isIdChar (c : Char) : Bool :=
  isDigit c || ('a' ≤ c && c ≤ 'z') || ('A' ≤ c && c ≤ 'Z')

/-- `(tsk_[0-9a-z]+_[0-9a-z]+)/i` at one position.  The greedy runs need no
backtracking: `_` is outside the class, so only the maximal runs can put `_`
(or the pattern end) next. -/
def matchTaskIdAt : List Char → Option (List Char)
  | c1 :: c2 :: c3 :: '_' :: r1 =>
    if ciChar 't' 'T' c1 && ciChar 's' 'S' c2 && ciChar 'k' 'K' c3 then
      let run1 := r1.takeWhile isIdChar
      if run1 = [] then none
      else
        match r1.dropWhile isIdChar with
        | '_' :: r2 =>
          let run2 := r2.takeWhile isIdChar
          if run2 = [] then none
          else some (c1 :: c2 :: c3 :: '_' :: (run1 ++ '_' :: run2))
        | _ => none
    else none
  | _ => none

def findTaskId : List Char → Option (List Char)
  | [] => none
  | c :: cs =>
    match matchTaskIdAt (c :: cs) with
    | some v => some v
    | none => findTaskId cs

/-- `in\s*progress` (case-insensitive) somewhere. -/
def testInProgress (l : List Char) : Bool :=
  searchB
    (fun x =>
      match stripPats (ciPats "in") x with
      | some r => (stripPats (ciPats "progress") (r.dropWhile jsWs)).isSome
      | none => false)
    l

/-- `parseStatusFromText` of the source. -/
def parseStatusFromText (s : String) : String :=
  let t := normChars s
  if t = [] then ""
  else if containsLit ("完了".data) t || containsCI "done" t ||
      containsLit ("終了".data) t || containsLit ("終わり".data) t then "done"
  else if containsLit ("進行".data) t || containsLit ("作業中".data) t ||
      containsLit ("着手".data) t || containsCI "doing" t || testInProgress t then "doing"
  else if containsLit ("未着手".data) t || containsLit ("未完了".data) t ||
      containsLit ("再開".data) t || containsCI "open" t || containsCI "todo" t then "open"
  else ""

/-! ### Labeled `field: value /` templates -/

def isLabelSep (c : Char) : Bool := c == ':' || c == '：' || jsWs c

/-- `(?:\s*(?:\/|$|\n))` at `l`: some whitespace prefix followed by `/`,
a newline, or the end (`\n` is itself whitespace, hence the search over
prefixes). -/
def tailSlashEnd : List Char → Bool
  | [] => true
  | c :: cs => if c == '/' || c == '\n' then true else if jsWs c then tailSlashEnd cs else false

/-- Lazy `([^\/\n]+?)` before `tailSlashEnd`. -/
def lazyLabelContent (accRev : List Char) : List Char → Option (List Char)
  | [] => none
  | c :: cs =>
    if c == '/' || c == '\n' then none
    else if tailSlashEnd cs then some (c :: accRev).reverse
    else lazyLabelContent (c :: accRev) cs

/-- `[:：\s]+([^\/\n]+?)(?:\s*(?:\/|$|\n))` after a matched field
keyword: the greedy separator run is tried longest first (a shorter run makes
the freed separator characters part of the lazy value). -/
def labeledValueAt (r0 : List Char) : Option (List Char) :=
  let n := (r0.takeWhile isLabelSep).length
  if n = 0 then none
  else
    (List.range n).findSome? fun i =>
      lazyLabelContent [] (r0.drop (n - i))

/-- Leftmost `(?:kw1|kw2|…)[:：\s]+(value)` search. -/
def labeledSearch (kws : List (List Char → Option (List Char))) :
    List Char → Option (List Char)
  | [] => none
  | c :: cs =>
    match kws.findSome? (fun f => (f (c :: cs)).bind labeledValueAt) with
    | some v => some v
    | none => labeledSearch kws cs

def kwTask : List (List Char → Option (List Char)) :=
  [stripLit ("タスク".data), fun l => stripPats (ciPats "task") l]

def kwDue : List (List Char → Option (List Char)) :=
  [stripLit ("期限".data), fun l => stripPats (ciPats "due") l]

def kwStatus : List (List Char → Option (List Char)) :=
  [fun l => stripPats (ciPats "status") l]

def kwProject : List (List Char → Option (List Char)) :=
  [stripLit ("プロジェクト".data), fun l => stripPats (ciPats "project") l]

/-! ### Project-title phrase matchers -/

/-- A character of `[^\sの\/]`. -/
def isProjNameChar (c : Char) : Bool := !(jsWs c || c == 'の' || c == '/')

/-- `(?:の|\s|$)` at `l`. -/
def projNameTail : List Char → Bool
  | [] => true
  | c :: _ => c == 'の' || jsWs c

/-- Lazy `([^\sの\/]+?)` before `projNameTail`. -/
def lazyProjName (accRev : List Char) : List Char → Option (List Char)
  | [] => none
  | c :: cs =>
    if isProjNameChar c then
      if projNameTail cs then some (c :: accRev).reverse
      else lazyProjName (c :: accRev) cs
    else none

/-- `/プロジェクト\s*([^\sの\/]+?)(?:の|\s|$)/`: the greedy `\s*` run is
deterministic because the value class excludes whitespace. -/
def projAfterSearch : List Char → Option (List Char)
  | [] => none
  | c :: cs =>
    match
      (match stripLit ("プロジェクト".data) (c :: cs) with
       | some r => lazyProjName [] (r.dropWhile jsWs)
       | none => none) with
    | some v => some v
    | none => projAfterSearch cs

/-- Lazy `([^\s]+?)` immediately before a literal `プロジェクト`. -/
def lazyBeforeProj (accRev : List Char) : List Char → Option (List Char)
  | [] => none
  | c :: cs =>
    if jsWs c then none
    else if (stripLit ("プロジェクト".data) cs).isSome then some (c :: accRev).reverse
    else lazyBeforeProj (c :: accRev) cs

/-- `/([^\s]+?)プロジェクト/` searched leftmost. -/
def beforeProjSearch : List Char → Option (List Char)
  | [] => none
  | c :: cs =>
    match lazyBeforeProj [] (c :: cs) with
    | some v => some v
    | none => beforeProjSearch cs

/-- Lazy `(.+?)` whose continuation `k` yields the result. -/
def lazyDotSplitP {α : Type} (k : List Char → Option α) (accRev : List Char) :
    List Char → Option (List Char × α)
  | [] => none
  | c :: cs =>
    if isDotChar c then
      match k cs with
      | some v => some ((c :: accRev).reverse, v)
      | none => lazyDotSplitP k (c :: accRev) cs
    else none

/-- A greedy optional character of class `cls`: try consuming it first. -/
def optClassThen (cls : Char → Bool) (k : List Char → Option (List Char))
    (l : List Char) : Option (List Char) :=
  match l with
  | c :: cs =>
    if cls c then
      match k cs with
      | some v => some v
      | none => k l
    else k l
  | [] => k l

def createKwAt (l : List Char) : Option (List Char) :=
  match stripLit ("追加".data) l with
  | some r => some r
  | none =>
    match stripLit ("作成".data) l with
    | some r => some r
    | none => stripLit ("登録".data) l

/-- `\s*(?:を)?\s*(追加|作成|登録)`: the greedy pieces are deterministic
(whitespace, `を` and the keyword heads are pairwise distinct); the JS retry
without the optional `を` is kept for order fidelity. -/
def createTailAfterG2 (l : List Char) : Option (List Char) :=
  let l1 := l.dropWhile jsWs
  match l1 with
  | c :: cs =>
    if c == 'を' then
      match createKwAt (cs.dropWhile jsWs) with
      | some r => some r
      | none => createKwAt l1
    else createKwAt l1
  | [] => none

/-- After `プロジェクト[「『"“]?(g1)[」』"”]?\s*(?:の|に)`: the second lazy
group `(g2)` with its `\s*(?:を)?\s*(追加|作成|登録)` tail.  The `\s*`
before `g2` reduces to a whitespace drop: a shorter greedy run only shifts
whitespace into `g2` without enabling an otherwise-failing suffix. -/
def projTaskTailK (rest : List Char) : Option (List Char) :=
  optClassThen isCloseQuote
    (fun r1 =>
      match r1.dropWhile jsWs with
      | c :: cs =>
        if c == 'の' || c == 'に' then
          match lazyDotSplitP createTailAfterG2 [] (cs.dropWhile jsWs) with
          | some (g2, _) => some g2
          | none => none
        else none
      | [] => none)
    rest

/-- `/プロジェクト[「『"“]?(.+?)[」』"”]?\s*(?:の|に)\s*(.+?)\s*(?:を)?\s*(追加|作成|登録)/`
searched leftmost; returns `(g1, g2)`. -/
def projTaskAtKw (r0 : List Char) : Option (List Char × List Char) :=
  let tryFrom := fun (r : List Char) => lazyDotSplitP projTaskTailK [] r
  match r0 with
  | c :: cs =>
    if isOpenQuote c then
      match tryFrom cs with
      | some v => some v
      | none => tryFrom r0
    else tryFrom r0
  | [] => none

def projTaskSearch : List Char → Option (List Char × List Char)
  | [] => none
  | c :: cs =>
    match stripLit ("プロジェクト".data) (c :: cs) with
    | some r0 =>
      match projTaskAtKw r0 with
      | some v => some v
      | none => projTaskSearch cs
    | none => projTaskSearch cs

/-- `(?:の|に|で|を|$)` at `l`. -/
def noNiDeWoEnd : List Char → Bool
  | [] => true
  | c :: _ => c == 'の' || c == 'に' || c == 'で' || c == 'を'

def projTitleAtKw (r0 : List Char) : Option (List Char) :=
  let tryFrom := fun (r : List Char) =>
    (lazyDotSplitP
        (fun rest =>
          optClassThen isCloseQuote
            (fun r1 => if noNiDeWoEnd r1 then some r1 else none) rest)
        [] r).map (·.1)
  match r0 with
  | c :: cs =>
    if isOpenQuote c then
      match tryFrom cs with
      | some v => some v
      | none => tryFrom r0
    else tryFrom r0
  | [] => none

/-- `/プロジェクト[「『"“]?(.+?)[」』"”]?(?:の|に|で|を|$)/` searched
leftmost. -/
def projTitleSearch : List Char → Option (List Char)
  | [] => none
  | c :: cs =>
    match stripLit ("プロジェクト".data) (c :: cs) with
    | some r0 =>
      match projTitleAtKw r0 with
      | some v => some v
      | none => projTitleSearch cs
    | none => projTitleSearch cs

/-- `parseProjectTitleFromText` of the source. -/
def parseProjectTitleFromText (s : String) : String :=
  let t := normChars s
  if t = [] then ""
  else
    match projTitleSearch t with
    | some g1 => String.mk (jsTrim g1)
    | none =>
      match beforeProjSearch t with
      | some g => String.mk (jsTrim g)
      | none => ""

/-- `(を)?\s*プロジェクト[「『"“]?.+?[」』"”]?に` at one position (a removal
pattern of the move branch). -/
def moveProjPatAt (l : List Char) : Option (List Char) :=
  let core := fun (x : List Char) =>
    match stripLit ("プロジェクト".data) (x.dropWhile jsWs) with
    | some r0 =>
      let tryFrom := fun (r : List Char) =>
        (lazyDotSplitP
            (fun rest =>
              optClassThen isCloseQuote
                (fun r1 =>
                  match r1 with
                  | c :: cs2 => if c == 'に' then some cs2 else none
                  | [] => none)
                rest)
            [] r).map (·.2)
      match r0 with
      | c :: cs2 =>
        if isOpenQuote c then
          match tryFrom cs2 with
          | some v => some v
          | none => tryFrom r0
        else tryFrom r0
      | [] => none
    | none => none
  match l with
  | c :: cs =>
    if c == 'を' then
      match core cs with
      | some v => some v
      | none => core l
    else core l
  | [] => none

/-! ### The update-target phrase -/

def finalKeyAt (l : List Char) : Bool :=
  (stripLit ("期限".data) l).isSome || (stripLit ("ステータス".data) l).isSome ||
  (stripLit ("状態".data) l).isSome

/-- A greedy optional literal before a Boolean continuation. -/
def optLitThenB (w : List Char) (k : List Char → Bool) (l : List Char) : Bool :=
  match stripLit w l with
  | some r => k r || k l
  | none => k l

/-- A greedy optional alternation (alternatives with distinct head
characters) before a Boolean continuation. -/
def optAltThenB (ws : List (List Char)) (k : List Char → Bool) (l : List Char) : Bool :=
  match ws.findSome? (fun w => stripLit w l) with
  | some r => k r || k l
  | none => k l

/-- `(?:の)?(?:タスク|プロジェクト)?(?:の)?(?:期限|ステータス|状態)` at `l`. -/
def updTargetTail (l : List Char) : Bool :=
  optLitThenB ("の".data)
    (fun l1 =>
      optAltThenB [("タスク".data), ("プロジェクト".data)]
        (fun l2 => optLitThenB ("の".data) (fun l3 => finalKeyAt l3) l2) l1)
    l

/-- Lazy `(.+?)` before `updTargetTail`. -/
def updTargetGo (accRev : List Char) : List Char → Option (List Char)
  | [] => none
  | c :: cs =>
    if isDotChar c then
      if updTargetTail cs then some (c :: accRev).reverse
      else updTargetGo (c :: accRev) cs
    else none

/-- `/(.+?)(?:の)?(?:タスク|プロジェクト)?(?:の)?(?:期限|ステータス|状態)/`
searched leftmost. -/
def updTargetSearch : List Char → Option (List Char)
  | [] => none
  | c :: cs =>
    match updTargetGo [] (c :: cs) with
    | some v => some v
    | none => updTargetSearch cs

example : updTargetSearch ("会議の期限を明日に変更".data) = some ("会議".data) := by decide
example : findTaskId ("完了 tsk_abc12_9f0e2d".data) = some ("tsk_abc12_9f0e2d".data) := by
  decide
example : parseStatusFromText "未着手に戻す" = "doing" := by decide
example : parseStatusFromText "再開する" = "open" := by decide

/-! ## `regexQuickParse` (the ordered fast-path rule table) -/

def projWordAlts : List (List Char → Option (List Char)) :=
  [stripLit ("プロジェクト".data), fun l => stripPats (ciPats "project") l]

def taskWordAlts : List (List Char → Option (List Char)) :=
  [stripLit ("タスク".data), fun l => stripPats (ciPats "task") l]

def doneAlts : List (List Char → Option (List Char)) :=
  [stripLit ("完了".data), stripLit ("終わった".data), stripLit ("終わりました".data),
   stripLit ("済んだ".data), fun l => stripPats (ciPats "done") l]

def reopenAlts : List (List Char → Option (List Char)) :=
  [stripLit ("再開".data), stripLit ("未完了".data), stripLit ("戻す".data),
   fun l => stripPats (ciPats "reopen") l]

def deleteAlts : List (List Char → Option (List Char)) :=
  [stripLit ("削除".data), stripLit ("消して".data), stripLit ("消す".data),
   stripLit ("取り消し".data), fun l => stripPats (ciPats "delete") l]

def createWordAlts : List (List Char → Option (List Char)) :=
  [stripLit ("追加".data), stripLit ("作成".data), stripLit ("登録".data),
   stripLit ("つくる".data), stripLit ("作る".data)]

def moveWordAlts : List (List Char → Option (List Char)) :=
  [stripLit ("移動".data), stripLit ("紐付け".data), stripLit ("割り当て".data),
   stripLit ("関連".data)]

/-- `/(追加|作成|登録|つくる|作る)/.test`. -/
def testCreateWords (l : List Char) : Bool :=
  containsLit ("追加".data) l || containsLit ("作成".data) l ||
  containsLit ("登録".data) l || containsLit ("つくる".data) l ||
  containsLit ("作る".data) l

/-- `/(編集|更新|変更|修正)/.test`. -/
def testEditWords (l : List Char) : Bool :=
  containsLit ("編集".data) l || containsLit ("更新".data) l ||
  containsLit ("変更".data) l || containsLit ("修正".data) l

/-- `/(移動|紐付け|割り当て|関連)/.test`. -/
def testMoveWords (l : List Char) : Bool :=
  containsLit ("移動".data) l || containsLit ("紐付け".data) l ||
  containsLit ("割り当て".data) l || containsLit ("関連".data) l

/-- The shared shape of the three project status-change branches: require the
project word and the branch keyword, then take the quoted text or the
keyword-stripped remainder as the title; an empty title falls through. -/
def rqpProjStatus (t quoted : List Char) (kwTest : List Char → Bool)
    (alts : List (List Char → Option (List Char))) : Option (List Char) :=
  if testProjectWord t ∧ kwTest t then
    let title :=
      if quoted ≠ [] then quoted
      else
        jsTrim (replaceParticleEnd (" ".data)
          (replaceAllAlts alts (" ".data)
            (replaceAllAlts projWordAlts (" ".data)
              (replaceAllAlts triggerAlts (" ".data) t))))
    if title ≠ [] then some title else none
  else none

def rqpB1 (t : List Char) : Option JsObj :=
  if testListTasks t then some { action := some "list_tasks" } else none

def rqpB2 (t : List Char) : Option JsObj :=
  if testListProjects t then some { action := some "list_projects" } else none

def rqpB3 (t quoted : List Char) : Option JsObj :=
  (rqpProjStatus t quoted testDoneWords doneAlts).map fun title =>
    { action := some "update_project", query := some (String.mk title),
      status := some "done" }

def rqpB4 (t quoted : List Char) : Option JsObj :=
  (rqpProjStatus t quoted testReopenWords reopenAlts).map fun title =>
    { action := some "update_project", query := some (String.mk title),
      status := some "open" }

def rqpB5 (t quoted : List Char) : Option JsObj :=
  (rqpProjStatus t quoted testDeleteWords deleteAlts).map fun title =>
    { action := some "delete_project", query := some (String.mk title) }

/-- The shared shape of the task complete/reopen/delete branches: an explicit
id wins; otherwise the quoted text or the keyword-stripped remainder becomes
the query (possibly empty). -/
def rqpStatusTask (t quoted : List Char) (mId : Option (List Char))
    (kwTest : List Char → Bool) (alts : List (List Char → Option (List Char)))
    (act : String) : Option JsObj :=
  if kwTest t then
    some
      (match mId with
       | some tid => { action := some act, task_id := some (String.mk tid) }
       | none =>
         let title :=
           if quoted ≠ [] then quoted
           else
             extractQueryFromText t
               [replaceAllAlts triggerAlts (" ".data),
                replaceAllAlts taskWordAlts (" ".data),
                replaceAllAlts alts (" ".data),
                replaceParticleEnd (" ".data)]
         { action := some act, query := some (String.mk title) })
  else none

def rqpB6 (t quoted : List Char) (mId : Option (List Char)) : Option JsObj :=
  rqpStatusTask t quoted mId testCompleteWords doneAlts "complete_task"

def rqpB7 (t quoted : List Char) (mId : Option (List Char)) : Option JsObj :=
  rqpStatusTask t quoted mId testReopenWords2 reopenAlts "reopen_task"

def rqpB8 (t quoted : List Char) (mId : Option (List Char)) : Option JsObj :=
  rqpStatusTask t quoted mId testDeleteWords deleteAlts "delete_task"

/-- The labeled `タスク: … / 期限: … / status: …` create-task template. -/
def rqpB9 (t quoted : List Char) : Option JsObj :=
  match labeledSearch kwTask t with
  | some v =>
    let projectTitle : List Char :=
      if testProjectWord t then
        jsTrim
          (if quoted ≠ [] then quoted
           else
             match projAfterSearch t with
             | some g1 => g1
             | none =>
               match beforeProjSearch t with
               | some g2 => g2
               | none => [])
      else []
    some
      { action := some "create_task", title := some (String.mk (jsTrim v)),
        due_at := some (String.mk (match labeledSearch kwDue t with
          | some d => jsTrim d
          | none => [])),
        status := some (String.mk (match labeledSearch kwStatus t with
          | some st => jsTrim st
          | none => [])),
        project_title := some (String.mk projectTitle) }
  | none => none

/-- `プロジェクト◯◯に◯◯を追加` — natural create-task with a project
relation. -/
def rqpB10 (t : List Char) : Option JsObj :=
  match projTaskSearch t with
  | some (g1, g2) =>
    some
      { action := some "create_task", title := some (String.mk (jsTrim g2)),
        project_title := some (String.mk (jsTrim g1)) }
  | none => none

/-- The labeled create-project template. -/
def rqpB11 (t : List Char) : Option JsObj :=
  match labeledSearch kwProject t with
  | some v =>
    some
      { action := some "create_project", title := some (String.mk (jsTrim v)),
        due_at := some (String.mk (match labeledSearch kwDue t with
          | some d => jsTrim d
          | none => [])),
        status := some (String.mk (match labeledSearch kwStatus t with
          | some st => jsTrim st
          | none => [])) }
  | none => none

/-- Natural create-project. -/
def rqpB12 (t quoted : List Char) : Option JsObj :=
  if testProjectWord t ∧ testCreateWords t then
    let title :=
      if quoted ≠ [] then quoted
      else
        match beforeProjSearch t with
        | some g => g
        | none =>
          jsTrim (replaceAllAlts createWordAlts (" ".data)
            (replaceAllAlts projWordAlts (" ".data)
              (replaceAllAlts triggerAlts (" ".data) t)))
    if title ≠ [] then
      some { action := some "create_project", title := some (String.mk (jsTrim title)) }
    else none
  else none

/-- Generic update (status or due), task or project. -/
def rqpB13 (t quoted : List Char) (nowMs : Int) : Option JsObj :=
  if testEditWords t then
    let isProject := testProjectWord t
    let target :=
      if quoted ≠ [] then quoted
      else
        match updTargetSearch t with
        | some g => jsTrim g
        | none => []
    let due := parseDueAtFromText (String.mk t) nowMs
    let status := parseStatusFromText (String.mk t)
    if target ≠ [] ∨ due ≠ "" ∨ status ≠ "" then
      some
        { action := some (if isProject then "update_project" else "update_task"),
          query := some (String.mk target), due_at := some due, status := some status }
    else none
  else none

/-- Move a task into a project. -/
def rqpB14 (t : List Char) : Option JsObj :=
  if testMoveWords t ∧ containsLit ("プロジェクト".data) t then
    let projectTitle := parseProjectTitleFromText (String.mk t)
    let target :=
      extractQueryFromText t
        [replaceAllAlts triggerAlts (" ".data), replaceAllAlts taskWordAlts (" ".data),
         replaceAllAlts [moveProjPatAt] (" ".data),
         replaceAllAlts moveWordAlts (" ".data)]
    if target ≠ [] ∨ projectTitle ≠ "" then
      some
        { action := some "update_task", query := some (String.mk target),
          project_title := some projectTitle }
    else none
  else none

/-- `regexQuickParse` of the source (lines 1035-1204): the branches above in
the source's order, first match wins.  `nowMs` is the clock read by the
`new Date()` default argument of `parseDueAtFromText` in the update
branch. -/
def regexQuickParse (s : String) (nowMs : Int) : Option JsObj :=
  let t := normChars s
  let quoted := (extractQuotedText (String.mk t)).data
  let mId := findTaskId t
  rqpB1 t <|> rqpB2 t <|> rqpB3 t quoted <|> rqpB4 t quoted <|> rqpB5 t quoted <|>
  rqpB6 t quoted mId <|> rqpB7 t quoted mId <|> rqpB8 t quoted mId <|>
  rqpB9 t quoted <|> rqpB10 t <|> rqpB11 t <|> rqpB12 t quoted <|>
  rqpB13 t quoted nowMs <|> rqpB14 t

example : regexQuickParse "タスク一覧" 0 = some { action := some "list_tasks" } := by decide

example :
    regexQuickParse "タスク完了 tsk_abc12_9f0e2d" 0 =
      some { action := some "complete_task", task_id := some "tsk_abc12_9f0e2d" } := by
  decide

example :
    regexQuickParse "会議を削除" 0 =
      some { action := some "delete_task", query := some "会議を" } := by decide

example :
    regexQuickParse "「会議」を削除" 0 =
      some { action := some "delete_task", query := some "会議" } := by decide

/-! ## LLM fallback (`extractJsonObject`, `vertexGenerateJson`, the Vertex
branch of `parseCommandFromText`) -/

def braceOpen : Char := Char.ofNat 123

def braceClose : Char := Char.ofNat 125

/-- `extractJsonObject`: the slice from the first opening brace to the last
closing brace, or null when absent or ill-ordered. -/
def extractJsonObject (s : String) : Option String :=
  let l := s.data
  match l.findIdx? (fun c => c == braceOpen) with
  | none => none
  | some first =>
    match l.reverse.findIdx? (fun c => c == braceClose) with
    | none => none
    | some ridx =>
      let last := l.length - 1 - ridx
      if last ≤ first then none
      else some (String.mk ((l.take (last + 1)).drop first))

/-- `vertexGenerateJson`: the transport side (auth, HTTP call, candidate-text
extraction) either throws (`Except.error`) or yields the model's reply text;
`JSON.parse` on the extracted brace block is abstracted as the oracle
`jsonParse` (`none` = parse exception), whose failure is recovered locally as
the bare `{action:"unknown"}` object. -/
def vertexGenerateJson (transport : Except Unit String)
    (jsonParse : String → Option JsObj) : Except Unit JsObj :=
  match transport with
  | .error e => .error e
  | .ok text =>
    let jsonText := (extractJsonObject text).getD text
    match jsonParse jsonText with
    | some obj => .ok obj
    | none => .ok { action := some "unknown" }

/-- The Vertex branch of `parseCommandFromText` (lines 1218-1248): normalize
the model object into the full thirteen-slot command, guess a missing
project title, re-parse the due date from the utterance; a thrown transport
error is caught and answered with the bare `{action:"unknown"}` object (only
that slot present). -/
def llmFallbackParse (stripped : String) (transport : Except Unit String)
    (jsonParse : String → Option JsObj) (nowMs : Int) : JsObj :=
  match vertexGenerateJson transport jsonParse with
  | .error _ => { action := some "unknown" }
  | .ok obj =>
    let cmd : JsObj :=
      { action := some (jsStr (jsOr obj.action (some "unknown"))),
        next_action := some (jsStr obj.next_action),
        target_type := some (jsStr obj.target_type),
        question := some (jsStr obj.question),
        task_id := some (jsStr obj.task_id),
        project_id := some (jsStr obj.project_id),
        title := some (jsStr obj.title),
        new_title := some (jsStr obj.new_title),
        description := some (jsStr obj.description),
        due_at := some (jsStr obj.due_at),
        status := some (jsStr obj.status),
        project_title := some (jsStr obj.project_title),
        query := some (jsStr obj.query) }
    let cmd2 :=
      if cmd.project_title = some "" ∧ testProjectWord stripped.data then
        let guessed :=
          let q := extractQuotedText stripped
          if q ≠ "" then q else parseProjectTitleFromText stripped
        if guessed ≠ "" then { cmd with project_title := some guessed } else cmd
      else cmd
    let due := parseDueAtFromText stripped nowMs
    if due ≠ "" then { cmd2 with due_at := some due } else cmd2

example :
    (llmFallbackParse "x" (Except.error ()) (fun _ => none) 0).query = none := by decide

example :
    (llmFallbackParse "x" (Except.ok "oops") (fun _ => none) 0).query = some "" := by
  decide

/-! ## Id generation (`makeId`) -/

/-- The digits of `Number.prototype.toString(36)` (and, below 16, of the hex
rendering of `Buffer.prototype.toString("hex")`): `0-9` then lowercase
`a-z`. -/
def digit36 (n : Nat) : Char :=
  if n < 10 then Char.ofNat (48 + n) else Char.ofNat (87 + n)

/-- Base-36 digit expansion; the fuel (initially `n + 1`) only bounds the
recursion depth and is never exhausted for the initial value. -/
def base36Go : Nat → Nat → List Char
  | 0, _ => []
  | fuel + 1, n =>
    if n < 36 then [digit36 n] else base36Go fuel (n / 36) ++ [digit36 (n % 36)]

/-- `Date.now().toString(36)`. -/
def natToBase36 (n : Nat) : List Char := base36Go (n + 1) n

/-- One byte of `crypto.randomBytes(…).toString("hex")`. -/
def byteHex (b : Nat) : List Char := [digit36 (b % 256 / 16), digit36 (b % 16)]

/-- `makeId`: `pfx_<timestamp in base 36>_<three random bytes in hex>`. -/
def makeId (pfx : String) (nowMs : Nat) (b0 b1 b2 : Nat) : String :=
  String.mk
    (pfx.data ++ '_' :: (natToBase36 nowMs ++ '_' :: (byteHex b0 ++ byteHex b1 ++ byteHex b2)))

example : makeId "tsk" 35 171 205 239 = "tsk_z_abcdef" := by decide

example : natToBase36 46655 = ['z', 'z', 'z'] := by decide

/-! ## Claim theorems: pending-action store (C1, C8, C2) -/

/-- C1 counterexample: the claim says the store is keyed by the
(space, user) pair, so arming a pending action for user `u2` must not remove
the one held by `u1` in the same space.  In the code the map is keyed by the
space alone: after `u2`'s `setPending`, `u1`'s entry (visible before) is
gone and the single slot of space `S` holds `u2`'s entry. -/
theorem c1_pending_cross_user_overwrite :
    (getPending (setPending emptyPending "S" "u1" ⟨"create_task"⟩ 0) "S" "u1" 1000).1 =
      some { action := "create_task", userId := "u1", expiresAt := 0 + 5 * 60 * 1000 } ∧
    (getPending
        (setPending (setPending emptyPending "S" "u1" ⟨"create_task"⟩ 0) "S" "u2"
          ⟨"delete_project"⟩ 0)
        "S" "u1" 1000).1 = none ∧
    (setPending (setPending emptyPending "S" "u1" ⟨"create_task"⟩ 0) "S" "u2"
        ⟨"delete_project"⟩ 0) "S" =
      some { action := "delete_project", userId := "u2", expiresAt := 0 + 5 * 60 * 1000 } := by
  refine ⟨by decide, by decide, by decide⟩

/-- C1 (amended): the `_pendingBySpace` store is keyed by the space
identifier alone, with the arming user recorded inside the entry.  At most
one pending action exists per space; `setPending` for any user overwrites
the space's entry unconditionally (so a second user's `setPending` replaces
the first user's pending action), other spaces are untouched, and a read by
a different non-empty user than the one bound in the entry sees nothing. -/
theorem pending_keyed_by_space (st : PendingStore) (s u1 u2 : String)
    (p1 p2 : PendingInfo) (t1 t2 now : Int) (hs : s ≠ "") (hu1 : u1 ≠ "")
    (hu2 : u2 ≠ "") (hne : u1 ≠ u2) :
    (setPending (setPending st s u1 p1 t1) s u2 p2 t2) s =
      some { action := p2.action, userId := u2, expiresAt := t2 + 5 * 60 * 1000 } ∧
    (∀ s2, s2 ≠ s →
      (setPending (setPending st s u1 p1 t1) s u2 p2 t2) s2 =
        (setPending st s u1 p1 t1) s2) ∧
    (getPending (setPending (setPending st s u1 p1 t1) s u2 p2 t2) s u1 now).1 = none := by
  have hval : (setPending (setPending st s u1 p1 t1) s u2 p2 t2) s =
      some { action := p2.action, userId := u2, expiresAt := t2 + 5 * 60 * 1000 } := by
    simp [setPending, hs]
  refine ⟨hval, ?_, ?_⟩
  · intro s2 hs2
    simp [setPending, hs, hs2]
  · simp only [getPending, if_neg hs, hval]
    split
    · rfl
    · rw [if_pos ⟨hu2, hu1, Ne.symm hne⟩]

theorem pending_keyed_by_space_witness :
    (getPending
        (setPending (setPending emptyPending "S" "u1" ⟨"create_task"⟩ 0) "S" "u2"
          ⟨"delete_task"⟩ 0)
        "S" "u1" 10).1 = none :=
  (pending_keyed_by_space emptyPending "S" "u1" "u2" ⟨"create_task"⟩ ⟨"delete_task"⟩ 0 0 10
      (by decide) (by decide) (by decide) (by decide)).2.2

/-- C8: an entry armed with the five-minute TTL is invisible to any
`getPending` read strictly after its expiry instant — the read returns
nothing, deletes the entry, and consequently no inbound message can be
routed to the slot-fill path of that entry. -/
theorem pending_expiry (st : PendingStore) (s u u2 : String) (p : PendingInfo)
    (t now : Int) (hs : s ≠ "") (hnow : t + 5 * 60 * 1000 < now) :
    (getPending (setPending st s u p t) s u2 now).1 = none ∧
    (getPending (setPending st s u p t) s u2 now).2 s = none ∧
    ∀ raw a, lineTextRoute (setPending st s u p t) s u2 raw now ≠ LineRoute.slotFill a := by
  have hval : (setPending st s u p t) s =
      some { action := p.action, userId := u, expiresAt := t + 5 * 60 * 1000 } := by
    simp [setPending, hs]
  have hget1 : (getPending (setPending st s u p t) s u2 now).1 = none := by
    simp only [getPending, if_neg hs, hval]
    rw [if_pos (by simpa using hnow)]
  refine ⟨hget1, ?_, ?_⟩
  · simp only [getPending, if_neg hs, hval]
    rw [if_pos (by simpa using hnow)]
    simp
  · intro raw a
    simp only [lineTextRoute]
    have hscr : (if s ≠ "" ∧ u2 ≠ ""
        then (getPending (setPending st s u p t) s u2 now).1 else none) = none := by
      by_cases hcond : s ≠ "" ∧ u2 ≠ ""
      · rw [if_pos hcond, hget1]
      · rw [if_neg hcond]
    by_cases htrig : isTriggeredText raw = false
    · rw [if_pos htrig]
      by_cases hcond : s ≠ "" ∧ u2 ≠ ""
      · rw [if_pos hcond]
        simp only [hget1]
        simp
      · rw [if_neg hcond]
        simp
    · rw [if_neg htrig]
      by_cases hne : (stripTriggerPrefix raw).data = []
      · rw [if_pos hne]
        simp
      · rw [if_neg hne]
        simp only [hscr]
        simp

theorem pending_expiry_witness :
    (getPending (setPending emptyPending "S" "U" ⟨"delete_task"⟩ 0) "S" "U" 300001).1 =
        none ∧
    lineTextRoute (setPending emptyPending "S" "U" ⟨"delete_task"⟩ 0) "S" "U" "議事録"
        300001 ≠ LineRoute.slotFill "delete_task" := by
  have h := pending_expiry emptyPending "S" "U" "U" ⟨"delete_task"⟩ 0 300001 (by decide)
    (by decide)
  exact ⟨h.1, h.2.2 "議事録" "delete_task"⟩

/-- C2 counterexample: the claim says every follow-up text from the pending
user — regardless of content other than the cancel keyword — is consumed as
the slot value and never parsed as a new command.  With a `create_task`
pending active and unexpired, the triggered message `@KAI bot タスク一覧`
(which contains the action keyword `一覧`) is routed to the new-command
parse instead. -/
theorem c2_pending_keyword_bypass :
    (getPending (setPending emptyPending "S" "U" ⟨"create_task"⟩ 0) "S" "U" 1000).1 =
      some { action := "create_task", userId := "U", expiresAt := 0 + 5 * 60 * 1000 } ∧
    lineTextRoute (setPending emptyPending "S" "U" ⟨"create_task"⟩ 0) "S" "U"
      "@KAI bot タスク一覧" 1000 = LineRoute.newCommand ∧
    lineTextRoute (setPending emptyPending "S" "U" ⟨"create_task"⟩ 0) "S" "U"
      "議事録" 1000 = LineRoute.ignored := by
  refine ⟨by decide, by decide, by decide⟩

/-- C2 (amended): with an active, unexpired pending action bound to the
user, a follow-up is consumed as the slot value only in these cases: an
untriggered, non-cancel message is consumed exactly when the pending action
is `delete_task`/`delete_project` (untriggered follow-ups for other pending
kinds are dropped); a triggered, non-empty message is consumed exactly when
its stripped text contains no action keyword, is not the cancel word, and
the pending action is one of `create_task`, `create_project`, `delete_task`,
`delete_project`.  A triggered message containing an action keyword — and a
triggered one whose pending action is outside those four — is parsed as a
new command. -/
theorem pending_follow_up_routing (st : PendingStore) (s u : String) (p : PendingEntry)
    (raw : String) (now : Int) (hs : s ≠ "") (hu : u ≠ "") (hst : st s = some p)
    (hexp : ¬ now > p.expiresAt) (hbind : p.userId = u) :
    (isTriggeredText raw = false → isCancelWord (normChars raw) = false →
      lineTextRoute st s u raw now =
        (if p.action = "delete_task" then LineRoute.slotFill "delete_task"
         else if p.action = "delete_project" then LineRoute.slotFill "delete_project"
         else LineRoute.ignored)) ∧
    (isTriggeredText raw = true → (stripTriggerPrefix raw).data ≠ [] →
      hasActionKeyword (stripTriggerPrefix raw).data = true →
      lineTextRoute st s u raw now = LineRoute.newCommand) ∧
    (isTriggeredText raw = true → (stripTriggerPrefix raw).data ≠ [] →
      hasActionKeyword (stripTriggerPrefix raw).data = false →
      isCancelWord (jsTrim ((stripTriggerPrefix raw).data.map zenkakuToSpace)) = false →
      (p.action = "create_task" ∨ p.action = "create_project" ∨ p.action = "delete_task" ∨
        p.action = "delete_project") →
      lineTextRoute st s u raw now = LineRoute.slotFill p.action) ∧
    (isTriggeredText raw = true → (stripTriggerPrefix raw).data ≠ [] →
      hasActionKeyword (stripTriggerPrefix raw).data = false →
      isCancelWord (jsTrim ((stripTriggerPrefix raw).data.map zenkakuToSpace)) = false →
      ¬(p.action = "create_task" ∨ p.action = "create_project" ∨ p.action = "delete_task" ∨
        p.action = "delete_project") →
      lineTextRoute st s u raw now = LineRoute.newCommand) := by
  have hcond : s ≠ "" ∧ u ≠ "" := ⟨hs, hu⟩
  have hget : (getPending st s u now).1 = some p := by
    simp only [getPending, if_neg hs, hst]
    rw [if_neg hexp, if_neg (by rw [hbind]; intro h; exact h.2.2 rfl)]
  have hscr : (if s ≠ "" ∧ u ≠ "" then (getPending st s u now).1 else none) = some p := by
    rw [if_pos hcond, hget]
  refine ⟨?_, ?_, ?_, ?_⟩
  · intro htrig hcan
    simp only [lineTextRoute]
    rw [if_pos htrig, if_pos hcond]
    simp only [hget]
    rw [if_neg (by simp [hcan])]
  · intro htrig hne hkw
    simp only [lineTextRoute]
    rw [if_neg (by simp [htrig]), if_neg hne]
    simp only [hscr]
    rw [if_neg (by simp [hkw])]
  · intro htrig hne hkw hcan hact
    simp only [lineTextRoute]
    rw [if_neg (by simp [htrig]), if_neg hne]
    simp only [hscr]
    rw [if_pos hkw, if_neg (by simp [hcan]), if_pos hact]
  · intro htrig hne hkw hcan hact
    simp only [lineTextRoute]
    rw [if_neg (by simp [htrig]), if_neg hne]
    simp only [hscr]
    rw [if_pos hkw, if_neg (by simp [hcan]), if_neg hact]

theorem pending_follow_up_routing_witness :
    lineTextRoute (setPending emptyPending "S" "U" ⟨"delete_task"⟩ 0) "S" "U" "議事録"
      1000 = LineRoute.slotFill "delete_task" := by
  have h := pending_follow_up_routing (setPending emptyPending "S" "U" ⟨"delete_task"⟩ 0)
    "S" "U" { action := "delete_task", userId := "U", expiresAt := 0 + 5 * 60 * 1000 }
    "議事録" 1000 (by decide) (by decide) (by decide) (by decide) (by decide)
  have h1 := h.1 (by decide) (by decide)
  simpa using h1

/-! ## Claim theorems: date parsing (C3) and fast-path determinism (C9) -/

/-- The first instant (midnight JST) of a civil date, in Unix ms. -/
def jstMidnightMs (y m d : Int) : Int := daysFromCivil y m d * msPerDay - jstOffsetMs

/-- C3: for any reference instant whose JST calendar date is 2025-12-20,
`"1/10 18:00"` parses to `"2026-01-10 18:00"` (no explicit year and the date
at local midnight lies strictly before the reference date, so the year rolls
forward); for any reference instant on 2025-03-01, `"4/10"` parses to
`"2025-04-10 18:00"` (time-of-day defaults to 18:00, year kept). -/
theorem parseDueAt_roundtrip (ofs1 ofs2 : Int) (h1a : 0 ≤ ofs1) (h1b : ofs1 < msPerDay)
    (h2a : 0 ≤ ofs2) (h2b : ofs2 < msPerDay) :
    parseDueAtFromText "1/10 18:00" (jstMidnightMs 2025 12 20 + ofs1) =
      "2026-01-10 18:00" ∧
    parseDueAtFromText "4/10" (jstMidnightMs 2025 3 1 + ofs2) = "2025-04-10 18:00" := by
  have e2 : msPerDay = 86400000 := rfl
  constructor
  · have hnd : Int.ediv (jstMidnightMs 2025 12 20 + ofs1 + jstOffsetMs) msPerDay =
        daysFromCivil 2025 12 20 := by
      have e1 : jstMidnightMs 2025 12 20 =
          daysFromCivil 2025 12 20 * 86400000 - 32400000 := rfl
      have e3 : jstOffsetMs = 32400000 := rfl
      rw [e1, e2, e3, show ∀ a b : Int, Int.ediv a b = a / b from fun _ _ => rfl]
      rw [e2] at h1b
      omega
    simp only [parseDueAtFromText, hnd]
    decide
  · have hnd : Int.ediv (jstMidnightMs 2025 3 1 + ofs2 + jstOffsetMs) msPerDay =
        daysFromCivil 2025 3 1 := by
      have e1 : jstMidnightMs 2025 3 1 =
          daysFromCivil 2025 3 1 * 86400000 - 32400000 := rfl
      have e3 : jstOffsetMs = 32400000 := rfl
      rw [e1, e2, e3, show ∀ a b : Int, Int.ediv a b = a / b from fun _ _ => rfl]
      rw [e2] at h2b
      omega
    simp only [parseDueAtFromText, hnd]
    decide

theorem parseDueAt_roundtrip_witness :
    parseDueAtFromText "1/10 18:00" (jstMidnightMs 2025 12 20 + 0) =
      "2026-01-10 18:00" ∧
    parseDueAtFromText "4/10" (jstMidnightMs 2025 3 1 + 0) = "2025-04-10 18:00" :=
  parseDueAt_roundtrip 0 0 (by decide) (by decide) (by decide) (by decide)

/-- C9 counterexample: `regexQuickParse` is not a function of the text alone.
Its update branch calls `parseDueAtFromText` with the current clock
(`new Date()` default), so the same utterance parsed on two different JST
days yields different commands. -/
theorem c9_clock_dependence :
    regexQuickParse "「会議」を明日に変更" (jstMidnightMs 2025 12 20) =
      some { action := some "update_task", query := some "会議",
             due_at := some "2025-12-21 18:00", status := some "" } ∧
    regexQuickParse "「会議」を明日に変更" (jstMidnightMs 2025 12 21) =
      some { action := some "update_task", query := some "会議",
             due_at := some "2025-12-22 18:00", status := some "" } ∧
    regexQuickParse "「会議」を明日に変更" (jstMidnightMs 2025 12 20) ≠
      regexQuickParse "「会議」を明日に変更" (jstMidnightMs 2025 12 21) := by
  refine ⟨by decide, by decide, by decide⟩

/-- C9 (amended): the regex fast path is deterministic given the clock:
on identical normalized text, two invocations whose reference instants fall
on the same JST calendar day (in particular, two invocations at the same
instant) return identical command objects. -/
theorem regexQuickParse_deterministic (s : String) (n1 n2 : Int)
    (h : Int.ediv (n1 + jstOffsetMs) msPerDay = Int.ediv (n2 + jstOffsetMs) msPerDay) :
    regexQuickParse s n1 = regexQuickParse s n2 := by
  have hdue : ∀ x : String, parseDueAtFromText x n1 = parseDueAtFromText x n2 := by
    intro x
    simp only [parseDueAtFromText, h]
  simp only [regexQuickParse, rqpB13, hdue]

theorem regexQuickParse_deterministic_witness :
    regexQuickParse "「会議」を明日に変更" 0 = regexQuickParse "「会議」を明日に変更" 1000 :=
  regexQuickParse_deterministic "「会議」を明日に変更" 0 1000 (by decide)

/-! ## Claim theorems: LLM fallback contract (C7) -/

/-- All thirteen slots of the command schema are present. -/
def allSlotsPresent (c : JsObj) : Bool :=
  c.action.isSome && c.next_action.isSome && c.target_type.isSome && c.question.isSome &&
  c.task_id.isSome && c.project_id.isSome && c.title.isSome && c.new_title.isSome &&
  c.description.isSome && c.due_at.isSome && c.status.isSome && c.project_title.isSome &&
  c.query.isSome

/-- C7 counterexample: on a transport error the fallback returns the bare
`{action:"unknown"}` object, so the other twelve slots are absent — the
claim that every returned command carries every slot fails on that path. -/
theorem c7_transport_error_slots_missing :
    (llmFallbackParse "こんにちは" (Except.error ()) (fun _ => none) 0).action =
      some "unknown" ∧
    (llmFallbackParse "こんにちは" (Except.error ()) (fun _ => none) 0).query = none ∧
    allSlotsPresent (llmFallbackParse "こんにちは" (Except.error ()) (fun _ => none) 0) =
      false := by
  refine ⟨by decide, by decide, by decide⟩

/-- C7 (amended): the fallback parser never raises.  On a transport error it
returns the bare `{action:"unknown"}` object, whose other twelve slots are
omitted.  When the transport succeeds — in particular on any parse failure
of the model's reply, which is recovered as `{action:"unknown"}` before
normalization — every slot of the schema is present, with slots absent from
the model's JSON normalized to the empty string; on a parse failure the
action is "unknown". -/
theorem llmFallback_contract (stripped : String) :
    (∀ (jsonParse : String → Option JsObj) (nowMs : Int),
      llmFallbackParse stripped (Except.error ()) jsonParse nowMs =
        { action := some "unknown" }) ∧
    (∀ (text : String) (jsonParse : String → Option JsObj) (nowMs : Int),
      jsonParse ((extractJsonObject text).getD text) = none →
      (llmFallbackParse stripped (Except.ok text) jsonParse nowMs).action =
        some "unknown") ∧
    (∀ (text : String) (jsonParse : String → Option JsObj) (nowMs : Int),
      allSlotsPresent (llmFallbackParse stripped (Except.ok text) jsonParse nowMs) =
        true) := by
  refine ⟨fun jsonParse nowMs => rfl, ?_, ?_⟩
  · intro text jsonParse nowMs h
    simp only [llmFallbackParse, vertexGenerateJson, h]
    repeat' split
    all_goals rfl
  · intro text jsonParse nowMs
    simp only [llmFallbackParse, vertexGenerateJson]
    cases hp : jsonParse ((extractJsonObject text).getD text) with
    | some obj =>
      repeat' split
      all_goals first | rfl | simp_all
    | none =>
      repeat' split
      all_goals first | rfl | simp_all

theorem llmFallback_contract_witness :
    llmFallbackParse "x" (Except.error ()) (fun _ => none) 0 =
      { action := some "unknown" } ∧
    (llmFallbackParse "x" (Except.ok "oops") (fun _ => none) 0).action =
      some "unknown" ∧
    allSlotsPresent (llmFallbackParse "x" (Except.ok "oops") (fun _ => none) 0) = true := by
  have h := llmFallback_contract "x"
  exact ⟨h.1 (fun _ => none) 0, h.2.1 "oops" (fun _ => none) 0 rfl,
    h.2.2 "oops" (fun _ => none) 0⟩

/-! ## Claim theorem: trigger detection (C4) -/

/-- C4: on the whitespace-normalized text, a mention marker (`@` or `＠`
followed, modulo whitespace, by the bot name `KAI bot` case-insensitively)
anywhere triggers; a wake word at the very start followed by whitespace, one
of the listed punctuation marks, or the end of string triggers; and a text
with neither — in particular a wake word after other characters, or a wake
word followed directly by an ordinary character — does not trigger. -/
theorem trigger_detection (text : String) :
    (MentionOccurs (normChars text) → isTriggeredText text = true) ∧
    (WakeAtHead (normChars text) → isTriggeredText text = true) ∧
    (¬ MentionOccurs (normChars text) → ¬ WakeAtHead (normChars text) →
      isTriggeredText text = false) := by
  refine ⟨?_, ?_, ?_⟩
  · intro h
    simp only [isTriggeredText, anywhereKai_iff.mpr h, Bool.true_or]
  · intro h
    simp only [isTriggeredText, headWake_iff.mpr h, Bool.or_true]
  · intro h1 h2
    have ha : anywhereKai (normChars text) = false :=
      Bool.eq_false_iff.mpr fun hb => h1 (anywhereKai_iff.mp hb)
    have hw : headWake (normChars text) = false :=
      Bool.eq_false_iff.mpr fun hb => h2 (headWake_iff.mp hb)
    simp only [isTriggeredText, ha, hw, Bool.or_self]

theorem trigger_detection_witness :
    isTriggeredText "よろしく ＠ KAI bot" = true ∧
    isTriggeredText "ボット、タスク一覧" = true ∧
    isTriggeredText "よろしくボット" = false := by
  refine ⟨?_, ?_, ?_⟩
  · refine (trigger_detection "よろしく ＠ KAI bot").1 ?_
    refine ⟨['よ', 'ろ', 'し', 'く', ' '], [' '], ['K', 'A', 'I'], [' '], ['b', 'o', 't'],
      [], '＠', by decide, by decide, by decide, ?_, by decide, ?_⟩
    · exact List.Forall₂.cons (by decide)
        (List.Forall₂.cons (by decide) (List.Forall₂.cons (by decide) List.Forall₂.nil))
    · exact List.Forall₂.cons (by decide)
        (List.Forall₂.cons (by decide) (List.Forall₂.cons (by decide) List.Forall₂.nil))
  · refine (trigger_detection "ボット、タスク一覧").2.1 ?_
    exact ⟨['ボ', 'ッ', 'ト'], ['、', 'タ', 'ス', 'ク', '一', '覧'], by decide, by decide,
      by decide⟩
  · refine (trigger_detection "よろしくボット").2.2 ?_ ?_
    · intro h
      exact absurd (anywhereKai_iff.mpr h) (by decide)
    · intro h
      exact absurd (headWake_iff.mpr h) (by decide)

/-! ## Claim theorem: entity matcher (C5) -/

theorem find?_eq_of_unique {α : Type} (p : α → Bool) {l : List α} {a : α}
    (ha : a ∈ l) (hp : p a = true) (huniq : ∀ b ∈ l, p b = true → b = a) :
    l.find? p = some a := by
  induction l with
  | nil => simp at ha
  | cons x xs ih =>
    by_cases hx : p x = true
    · have hxa : x = a := huniq x (by simp) hx
      subst hxa
      simp [List.find?_cons_of_pos _ hx]
    · rcases List.mem_cons.mp ha with rfl | hmem
      · exact absurd hp hx
      · rw [List.find?_cons_of_neg _ (by simpa using hx)]
        exact ih hmem fun b hb => huniq b (by simp [hb])

/-- C5: over the live rows fetched for the space (within the scan cap), an
exact id hit returns exactly that entity, even when the query would
substring-match other titles; with no id hit the matcher returns exactly the
live rows whose lowercased title contains the lowercased query; and an
ambiguous query (two or more matches) leaves the store unchanged in the
complete-task executor. -/
theorem entity_matcher_behavior :
    (∀ (rows : List TaskRow) (spaceId query : String) (tm : TaskRow),
      tm ∈ sheetsGetTasksBySpace rows spaceId 200 false →
      tm.task_id = normalizeText query →
      normalizeText query ≠ "" →
      (∀ t ∈ sheetsGetTasksBySpace rows spaceId 200 false,
        t.task_id = normalizeText query → t = tm) →
      findTasksByQuery rows spaceId query 200 = [tm]) ∧
    (∀ (rows : List TaskRow) (spaceId query : String),
      normalizeText query ≠ "" →
      (∀ t ∈ sheetsGetTasksBySpace rows spaceId 200 false,
        t.task_id ≠ normalizeText query) →
      findTasksByQuery rows spaceId query 200 =
        (sheetsGetTasksBySpace rows spaceId 200 false).filter
          (fun t => containsLit (lowerStr (normalizeText query)).data
            (lowerStr t.title).data)) ∧
    (∀ (rows : List ProjectRow) (spaceId query : String) (pm : ProjectRow),
      pm ∈ sheetsGetProjectsBySpace rows spaceId 200 false →
      pm.project_id = normalizeText query →
      normalizeText query ≠ "" →
      (∀ p ∈ sheetsGetProjectsBySpace rows spaceId 200 false,
        p.project_id = normalizeText query → p = pm) →
      findProjectsByQuery rows spaceId query 200 = [pm]) ∧
    (∀ (rows : List ProjectRow) (spaceId query : String),
      normalizeText query ≠ "" →
      (∀ p ∈ sheetsGetProjectsBySpace rows spaceId 200 false,
        p.project_id ≠ normalizeText query) →
      findProjectsByQuery rows spaceId query 200 =
        (sheetsGetProjectsBySpace rows spaceId 200 false).filter
          (fun p => containsLit (lowerStr (normalizeText query)).data
            (lowerStr p.title).data)) ∧
    (∀ (rows : List TaskRow) (spaceId : String) (cmd : JsObj) (nowIso : String),
      2 ≤ (findTasksByQuery rows spaceId
          (jsStr (jsOr (jsOr cmd.task_id cmd.query) cmd.title)) 200).length →
      completeTaskExec rows spaceId cmd nowIso = rows) := by
  refine ⟨?_, ?_, ?_, ?_, ?_⟩
  · intro rows spaceId query tm hmem hid hq huniq
    simp only [findTasksByQuery]
    rw [if_neg hq]
    rw [find?_eq_of_unique _ hmem (by simp [hid])
      (fun b hb hpb => huniq b hb (by simpa using hpb))]
  · intro rows spaceId query hq hnone
    simp only [findTasksByQuery]
    rw [if_neg hq]
    rw [List.find?_eq_none.mpr fun t ht => by simpa using hnone t ht]
  · intro rows spaceId query pm hmem hid hq huniq
    simp only [findProjectsByQuery]
    rw [if_neg hq]
    rw [find?_eq_of_unique _ hmem (by simp [hid])
      (fun b hb hpb => huniq b hb (by simpa using hpb))]
  · intro rows spaceId query hq hnone
    simp only [findProjectsByQuery]
    rw [if_neg hq]
    rw [List.find?_eq_none.mpr fun p hp => by simpa using hnone p hp]
  · intro rows spaceId cmd nowIso hlen
    simp only [completeTaskExec]
    split
    · rfl
    · cases hm : findTasksByQuery rows spaceId
          (jsStr (jsOr (jsOr cmd.task_id cmd.query) cmd.title)) 200 with
      | nil => simp only [hm]
      | cons a tl =>
        cases tl with
        | nil =>
          rw [hm] at hlen
          simp at hlen
        | cons b tl2 => simp only [hm]

def c5Row1 : TaskRow :=
  { task_id := "tsk_a_b", title := "会議メモ", status := "open", group_id := "S" }

def c5Row2 : TaskRow :=
  { task_id := "t2", title := "tsk_a_b を含む表題", status := "open", group_id := "S" }

def c5Row3 : TaskRow :=
  { task_id := "t3", title := "会議A", status := "open", group_id := "S" }

def c5Row4 : TaskRow :=
  { task_id := "t4", title := "会議B", status := "open", group_id := "S" }

theorem entity_matcher_behavior_witness :
    findTasksByQuery [c5Row1, c5Row2] "S" "tsk_a_b" 200 = [c5Row1] ∧
    completeTaskExec [c5Row3, c5Row4] "S" { query := some "会議" } "2026-01-01" =
      [c5Row3, c5Row4] := by
  constructor
  · exact entity_matcher_behavior.1 [c5Row1, c5Row2] "S" "tsk_a_b" c5Row1 (by decide)
      (by decide) (by decide) (by decide)
  · exact entity_matcher_behavior.2.2.2.2 [c5Row3, c5Row4] "S" { query := some "会議" }
      "2026-01-01" (by decide)

/-! ## Claim theorem: soft-delete idempotence (C6) -/

theorem mem_tasksFetchGo {sid : List Char} {limit : Nat} {rows : List TaskRow}
    {cnt : Nat} {t : TaskRow} (h : t ∈ tasksFetchGo sid limit false rows cnt) :
    lowerStr t.status ≠ "deleted" := by
  induction rows generalizing cnt with
  | nil => simp [tasksFetchGo] at h
  | cons r rs ih =>
    simp only [tasksFetchGo] at h
    split at h
    · split at h
      · exact ih h
      · rename_i hnotdel
        rcases List.mem_cons.mp h with rfl | h2
        · intro hC
          exact hnotdel ⟨trivial, hC⟩
        · split at h2
          · simp at h2
          · exact ih h2
    · exact ih h

theorem findTasksByQuery_live {rows : List TaskRow} {spaceId query : String}
    {lim : Nat} {t : TaskRow} (h : t ∈ findTasksByQuery rows spaceId query lim) :
    lowerStr t.status ≠ "deleted" := by
  simp only [findTasksByQuery, sheetsGetTasksBySpace] at h
  split at h
  · simp at h
  · split at h
    · rename_i tm hfind
      have ht : t = tm := by simpa using h
      subst ht
      exact mem_tasksFetchGo (List.mem_of_find?_eq_some hfind)
    · exact mem_tasksFetchGo (List.mem_filter.mp h).1

/-- The per-row effect of the delete executor: the id is preserved and the
status is either untouched or set to `"deleted"`. -/
def DeleteStep (old new : TaskRow) : Prop :=
  new.task_id = old.task_id ∧ (new.status = old.status ∨ new.status = "deleted")

theorem deleteStep_refl (r : TaskRow) : DeleteStep r r := ⟨rfl, Or.inl rfl⟩

theorem deleteStep_trans {a b c : TaskRow} (h1 : DeleteStep a b) (h2 : DeleteStep b c) :
    DeleteStep a c := by
  refine ⟨h2.1.trans h1.1, ?_⟩
  rcases h2.2 with h4 | h4
  · rcases h1.2 with h3 | h3
    · exact Or.inl (h4.trans h3)
    · exact Or.inr (h4.trans h3)
  · exact Or.inr h4

theorem forall2_deleteStep_refl (l : List TaskRow) : List.Forall₂ DeleteStep l l :=
  List.forall₂_same.mpr fun r _ => deleteStep_refl r

theorem forall2_deleteStep_trans {a b c : List TaskRow}
    (h1 : List.Forall₂ DeleteStep a b) (h2 : List.Forall₂ DeleteStep b c) :
    List.Forall₂ DeleteStep a c := by
  induction h1 generalizing c with
  | nil =>
    cases h2
    exact List.Forall₂.nil
  | cons hab h1' ih =>
    cases h2 with
    | cons hbc h2' => exact List.Forall₂.cons (deleteStep_trans hab hbc) (ih h2')

theorem sheetsUpdateTask_deleteStep {rows rows' : List TaskRow} {tid nowIso : String}
    {p : TaskPatch} (hp : p.status = none ∨ p.status = some "deleted")
    (h : sheetsUpdateTask rows tid p nowIso = some rows') :
    List.Forall₂ DeleteStep rows rows' := by
  induction rows generalizing rows' with
  | nil => simp [sheetsUpdateTask] at h
  | cons r rs ih =>
    simp only [sheetsUpdateTask] at h
    split at h
    · have hr : rows' = applyTaskPatch r p nowIso :: rs := by
        simpa [eq_comm] using h
      subst hr
      refine List.Forall₂.cons ⟨rfl, ?_⟩ (forall2_deleteStep_refl rs)
      rcases hp with hp | hp
      · exact Or.inl (by simp [applyTaskPatch, hp])
      · exact Or.inr (by simp [applyTaskPatch, hp])
    · cases hs : sheetsUpdateTask rs tid p nowIso with
      | none =>
        rw [hs] at h
        simp at h
      | some rs' =>
        rw [hs] at h
        have hr : rows' = r :: rs' := by simpa [eq_comm] using h
        subst hr
        exact List.Forall₂.cons (deleteStep_refl r) (ih hs)

theorem deleteItemsGo_deleteStep (spaceId nowIso : String) (items : List String)
    (rows : List TaskRow) :
    List.Forall₂ DeleteStep rows (deleteItemsGo spaceId nowIso items rows) := by
  induction items generalizing rows with
  | nil => exact forall2_deleteStep_refl rows
  | cons item rest ih =>
    simp only [deleteItemsGo]
    refine forall2_deleteStep_trans ?_ (ih _)
    cases hm : findTasksByQuery rows spaceId item 200 with
    | nil => exact forall2_deleteStep_refl rows
    | cons a tl =>
      cases tl with
      | nil =>
        simp only
        cases hu : sheetsUpdateTask rows a.task_id
            { status := some "deleted", deleted_at := some nowIso } nowIso with
        | none => simp only [hu, Option.getD_none]; exact forall2_deleteStep_refl rows
        | some rows2 =>
          simp only [hu, Option.getD_some]
          exact sheetsUpdateTask_deleteStep (Or.inr rfl) hu
      | cons b tl2 => exact forall2_deleteStep_refl rows

/-- C6: soft-deleted rows are invisible to the matcher (so a delete command
addressing an already-deleted entity finds no live match for it), and the
delete executor preserves the number of rows and every row's identifier,
only ever moves a status to `"deleted"`, and keeps already-deleted rows
deleted — it never resurrects, removes, or duplicates a row. -/
theorem soft_delete_idempotent :
    (∀ (rows : List TaskRow) (spaceId query : String) (lim : Nat),
      ∀ t ∈ findTasksByQuery rows spaceId query lim, lowerStr t.status ≠ "deleted") ∧
    (∀ (rows : List TaskRow) (spaceId q nowIso : String),
      (deleteTasksExec rows spaceId q nowIso).length = rows.length) ∧
    (∀ (rows : List TaskRow) (spaceId q nowIso : String),
      List.Forall₂ DeleteStep rows (deleteTasksExec rows spaceId q nowIso)) ∧
    (∀ (rows : List TaskRow) (spaceId q nowIso : String),
      List.Forall₂
        (fun old new => lowerStr old.status = "deleted" → lowerStr new.status = "deleted")
        rows (deleteTasksExec rows spaceId q nowIso)) := by
  have hstep : ∀ (rows : List TaskRow) (spaceId q nowIso : String),
      List.Forall₂ DeleteStep rows (deleteTasksExec rows spaceId q nowIso) :=
    fun rows spaceId q nowIso => deleteItemsGo_deleteStep spaceId nowIso _ rows
  refine ⟨?_, ?_, hstep, ?_⟩
  · intro rows spaceId query lim t h
    exact findTasksByQuery_live h
  · intro rows spaceId q nowIso
    exact (hstep rows spaceId q nowIso).length_eq.symm
  · intro rows spaceId q nowIso
    refine (hstep rows spaceId q nowIso).imp ?_
    intro a b hab hdel
    rcases hab.2 with h2 | h2
    · rw [h2]
      exact hdel
    · rw [h2]
      decide

def c6RowDel : TaskRow :=
  { task_id := "tD", title := "会議X", status := "deleted", group_id := "S" }

def c6RowLive : TaskRow :=
  { task_id := "tL", title := "会議Y", status := "open", group_id := "S" }

theorem soft_delete_idempotent_witness :
    lowerStr c6RowLive.status ≠ "deleted" ∧
    (deleteTasksExec [c6RowDel, c6RowLive] "S" "tD" "2026-01-01").length = 2 := by
  constructor
  · exact soft_delete_idempotent.1 [c6RowDel, c6RowLive] "S" "会議" 200 c6RowLive (by decide)
  · have h := soft_delete_idempotent.2.1 [c6RowDel, c6RowLive] "S" "tD" "2026-01-01"
    simpa using h

/-! ## Claim support: id-generator character facts (C10) -/

theorem digit36_props : ∀ k, k < 36 →
    isIdChar (digit36 k) = true ∧ jsWs (digit36 k) = false ∧
    zenkakuToSpace (digit36 k) = digit36 k ∧ (digit36 k == '_') = false := by decide

theorem mem_base36Go {fuel n : Nat} {c : Char} (h : c ∈ base36Go fuel n) :
    ∃ k, k < 36 ∧ c = digit36 k := by
  induction fuel generalizing n with
  | zero => simp [base36Go] at h
  | succ fuel ih =>
    simp only [base36Go] at h
    split at h
    · rename_i hn
      exact ⟨n, hn, by simpa using h⟩
    · rcases List.mem_append.mp h with h1 | h1
      · exact ih h1
      · exact ⟨n % 36, Nat.mod_lt _ (by decide), by simpa using h1⟩

theorem natToBase36_ne_nil (n : Nat) : natToBase36 n ≠ [] := by
  simp only [natToBase36, base36Go]
  split <;> simp

theorem mem_natToBase36_facts {n : Nat} {c : Char} (h : c ∈ natToBase36 n) :
    isIdChar c = true ∧ jsWs c = false ∧ zenkakuToSpace c = c ∧ (c == '_') = false := by
  obtain ⟨k, hk, rfl⟩ := mem_base36Go h
  exact digit36_props k hk

theorem mem_byteHex_facts {b : Nat} {c : Char} (h : c ∈ byteHex b) :
    isIdChar c = true ∧ jsWs c = false ∧ zenkakuToSpace c = c ∧ (c == '_') = false := by
  have hc : c = digit36 (b % 256 / 16) ∨ c = digit36 (b % 16) := by
    simpa [byteHex] using h
  rcases hc with rfl | rfl
  · exact digit36_props _ (by omega)
  · exact digit36_props _ (by omega)

/-- The character content of a generated id: ASCII alphanumerics and the two
underscores. -/
theorem mem_makeId_facts (ts b0 b1 b2 : Nat) :
    ∀ c ∈ (makeId "tsk" ts b0 b1 b2).data, jsWs c = false ∧ zenkakuToSpace c = c := by
  intro c hc
  simp only [makeId, String.data] at hc
  rcases List.mem_append.mp hc with h1 | h1
  · rcases (by simpa using h1 : c = 't' ∨ c = 's' ∨ c = 'k') with rfl | rfl | rfl <;>
      exact ⟨by decide, by decide⟩
  · rcases List.mem_cons.mp h1 with rfl | h2
    · exact ⟨by decide, by decide⟩
    · rcases List.mem_append.mp h2 with h3 | h3
      · have := mem_natToBase36_facts h3
        exact ⟨this.2.1, this.2.2.1⟩
      · rcases List.mem_cons.mp h3 with rfl | h4
        · exact ⟨by decide, by decide⟩
        · rcases List.mem_append.mp h4 with h5 | h5
          · rcases List.mem_append.mp h5 with h6 | h6
            · have := mem_byteHex_facts h6
              exact ⟨this.2.1, this.2.2.1⟩
            · have := mem_byteHex_facts h6
              exact ⟨this.2.1, this.2.2.1⟩
          · have := mem_byteHex_facts h5
            exact ⟨this.2.1, this.2.2.1⟩

theorem takeWhile_all_append {p : Char → Bool} {a b : List Char}
    (ha : ∀ c ∈ a, p c = true) (hb : ∀ c r, b = c :: r → p c = false) :
    (a ++ b).takeWhile p = a := by
  induction a with
  | nil =>
    cases b with
    | nil => rfl
    | cons c r => simp [List.takeWhile_cons, hb c r rfl]
  | cons x xs ih =>
    simp only [List.cons_append, List.takeWhile_cons, ha x (by simp)]
    simp only [if_true]
    rw [ih fun c hc => ha c (by simp [hc])]

theorem jsTrim_eq_self {l : List Char} (h1 : ∀ c, l.head? = some c → jsWs c = false)
    (h2 : ∀ c, l.reverse.head? = some c → jsWs c = false) : jsTrim l = l := by
  have d1 : l.dropWhile jsWs = l := by
    cases l with
    | nil => rfl
    | cons c cs => rw [List.dropWhile_cons, if_neg (by simp [h1 c rfl])]
  have d2 : l.reverse.dropWhile jsWs = l.reverse := by
    cases hr : l.reverse with
    | nil => rfl
    | cons c cs => rw [List.dropWhile_cons, if_neg (by simp [h2 c (by rw [hr]; rfl)])]
  rw [jsTrim, d1, d2, List.reverse_reverse]

theorem makeId_data (ts b0 b1 b2 : Nat) :
    (makeId "tsk" ts b0 b1 b2).data =
      't' :: 's' :: 'k' :: '_' ::
        (natToBase36 ts ++ '_' :: (byteHex b0 ++ byteHex b1 ++ byteHex b2)) := rfl

theorem makeId_map_zenkaku (ts b0 b1 b2 : Nat) :
    (makeId "tsk" ts b0 b1 b2).data.map zenkakuToSpace =
      (makeId "tsk" ts b0 b1 b2).data :=
  (List.map_congr_left fun c hc => (mem_makeId_facts ts b0 b1 b2 c hc).2).trans
    (List.map_id' _)

theorem makeId_getLast (ts b0 b1 b2 : Nat) :
    (makeId "tsk" ts b0 b1 b2).data.reverse.head? = some (digit36 (b2 % 16)) := by
  rw [makeId_data]
  simp [byteHex, List.reverse_append]

theorem makeId_trim (ts b0 b1 b2 : Nat) :
    jsTrim (makeId "tsk" ts b0 b1 b2).data = (makeId "tsk" ts b0 b1 b2).data := by
  refine jsTrim_eq_self ?_ ?_
  · intro c hc
    rw [makeId_data] at hc
    obtain rfl : 't' = c := by simpa using hc
    decide
  · intro c hc
    rw [makeId_getLast] at hc
    obtain rfl : digit36 (b2 % 16) = c := by simpa using hc
    exact (digit36_props _ (by omega)).2.1

/-- The generated id is untouched by `normalizeText`. -/
theorem normalizeText_makeId (ts b0 b1 b2 : Nat) :
    normalizeText (makeId "tsk" ts b0 b1 b2) = makeId "tsk" ts b0 b1 b2 := by
  simp only [normalizeText, normChars]
  rw [makeId_map_zenkaku, makeId_trim]

theorem makeId_ne_empty (ts b0 b1 b2 : Nat) : makeId "tsk" ts b0 b1 b2 ≠ "" := by
  intro h
  have h2 := congrArg String.data h
  rw [makeId_data] at h2
  simp at h2

/-- The normalization of the completion utterance `完了 <id>`. -/
theorem normChars_completion_utt (ts b0 b1 b2 : Nat) :
    normChars ("完了 " ++ makeId "tsk" ts b0 b1 b2) =
      '完' :: '了' :: ' ' :: (makeId "tsk" ts b0 b1 b2).data := by
  simp only [normChars, String.data_append]
  simp only [List.map_append, List.map_cons, List.map_nil]
  rw [makeId_map_zenkaku]
  rw [show zenkakuToSpace '完' = '完' from rfl, show zenkakuToSpace '了' = '了' from rfl,
    show zenkakuToSpace ' ' = ' ' from rfl]
  simp only [List.cons_append, List.nil_append]
  refine jsTrim_eq_self ?_ ?_
  · intro c hc
    obtain rfl : '完' = c := by simpa using hc
    decide
  · intro c hc
    have hrev : ('完' :: '了' :: ' ' :: (makeId "tsk" ts b0 b1 b2).data).reverse.head? =
        some (digit36 (b2 % 16)) := by
      rw [makeId_data]
      simp [byteHex, List.reverse_append]
    rw [hrev] at hc
    obtain rfl : digit36 (b2 % 16) = c := by simpa using hc
    exact (digit36_props _ (by omega)).2.1

theorem findTaskId_completion_utt (ts b0 b1 b2 : Nat) :
    findTaskId ('完' :: '了' :: ' ' :: (makeId "tsk" ts b0 b1 b2).data) =
      some ((makeId "tsk" ts b0 b1 b2).data) := by
  have hts : ∀ c ∈ natToBase36 ts, isIdChar c = true :=
    fun c hc => (mem_natToBase36_facts hc).1
  have hhex : ∀ c ∈ byteHex b0 ++ byteHex b1 ++ byteHex b2, isIdChar c = true := by
    intro c hc
    rcases List.mem_append.mp hc with h1 | h1
    · rcases List.mem_append.mp h1 with h2 | h2 <;> exact (mem_byteHex_facts h2).1
    · exact (mem_byteHex_facts h1).1
  have hund : ∀ (c : Char) (r : List Char),
      ('_' :: (byteHex b0 ++ byteHex b1 ++ byteHex b2)) = c :: r → isIdChar c = false := by
    intro c r h
    obtain rfl : '_' = c := by injection h
    decide
  have htw1 : (natToBase36 ts ++
      '_' :: (byteHex b0 ++ byteHex b1 ++ byteHex b2)).takeWhile isIdChar =
        natToBase36 ts := takeWhile_all_append hts hund
  have hdw1 : (natToBase36 ts ++
      '_' :: (byteHex b0 ++ byteHex b1 ++ byteHex b2)).dropWhile isIdChar =
        '_' :: (byteHex b0 ++ byteHex b1 ++ byteHex b2) := dropWhile_all_append hts hund
  have htw2 : (byteHex b0 ++ byteHex b1 ++ byteHex b2).takeWhile isIdChar =
      byteHex b0 ++ byteHex b1 ++ byteHex b2 := List.takeWhile_eq_self_iff.mpr hhex
  have hmatch : matchTaskIdAt ('t' :: 's' :: 'k' :: '_' ::
      (natToBase36 ts ++ '_' :: (byteHex b0 ++ byteHex b1 ++ byteHex b2))) =
      some ('t' :: 's' :: 'k' :: '_' ::
        (natToBase36 ts ++ '_' :: (byteHex b0 ++ byteHex b1 ++ byteHex b2))) := by
    simp only [matchTaskIdAt]
    rw [if_pos (by decide), htw1, if_neg (natToBase36_ne_nil ts)]
    simp only [hdw1, htw2]
    rw [if_neg (by simp [byteHex])]
  have hstep : findTaskId ('完' :: '了' :: ' ' :: (makeId "tsk" ts b0 b1 b2).data) =
      findTaskId ('t' :: 's' :: 'k' :: '_' ::
        (natToBase36 ts ++ '_' :: (byteHex b0 ++ byteHex b1 ++ byteHex b2))) := rfl
  rw [hstep, makeId_data]
  simp only [findTaskId, hmatch]

theorem testCompleteWords_head (rest : List Char) :
    testCompleteWords ('完' :: '了' :: rest) = true := by
  have h : containsLit ("完了".data) ('完' :: '了' :: rest) = true := by
    simp only [containsLit]
    rw [show (stripLit ("完了".data) ('完' :: '了' :: rest)).isSome = true from rfl]
    simp
  simp [testCompleteWords, testDoneWords, h]

/-- C10 (amended): provided the generated identifier does not accidentally
contain a keyword that fires an earlier rule of the fast-path table — stated
as: the two list-rules and the project-word test are false on the completion
utterance (the only ways they can fire is a `listtasks`, `listprojects` or
`project` substring inside the base-36 timestamp) — the id matches the
`tsk_[0-9a-z]+_[0-9a-z]+` pattern, a completion keyword plus the exact id
parses as `complete_task` carrying the id, and the matcher's exact-id
comparison then selects exactly the task bearing that id among the fetched
live rows. -/
theorem makeId_roundtrip (ts b0 b1 b2 : Nat)
    (hlt : testListTasks ('完' :: '了' :: ' ' :: (makeId "tsk" ts b0 b1 b2).data) = false)
    (hlp : testListProjects ('完' :: '了' :: ' ' :: (makeId "tsk" ts b0 b1 b2).data) = false)
    (hproj : testProjectWord ('完' :: '了' :: ' ' :: (makeId "tsk" ts b0 b1 b2).data) =
      false) :
    (∀ nowMs : Int,
      regexQuickParse ("完了 " ++ makeId "tsk" ts b0 b1 b2) nowMs =
        some { action := some "complete_task",
               task_id := some (makeId "tsk" ts b0 b1 b2) }) ∧
    (∀ (rows : List TaskRow) (spaceId : String) (tm : TaskRow),
      tm ∈ sheetsGetTasksBySpace rows spaceId 200 false →
      tm.task_id = makeId "tsk" ts b0 b1 b2 →
      (∀ t ∈ sheetsGetTasksBySpace rows spaceId 200 false,
        t.task_id = makeId "tsk" ts b0 b1 b2 → t = tm) →
      findTasksByQuery rows spaceId (makeId "tsk" ts b0 b1 b2) 200 = [tm]) := by
  constructor
  · intro nowMs
    have hb1 : rqpB1 ('完' :: '了' :: ' ' :: (makeId "tsk" ts b0 b1 b2).data) = none := by
      simp [rqpB1, hlt]
    have hb2 : rqpB2 ('完' :: '了' :: ' ' :: (makeId "tsk" ts b0 b1 b2).data) = none := by
      simp [rqpB2, hlp]
    have hps : ∀ kwTest alts q,
        rqpProjStatus ('完' :: '了' :: ' ' :: (makeId "tsk" ts b0 b1 b2).data) q kwTest
          alts = none := by
      intro kwTest alts q
      simp [rqpProjStatus, hproj]
    have hb6 : ∀ q, rqpB6 ('完' :: '了' :: ' ' :: (makeId "tsk" ts b0 b1 b2).data) q
        (findTaskId ('完' :: '了' :: ' ' :: (makeId "tsk" ts b0 b1 b2).data)) =
        some { action := some "complete_task",
               task_id := some (makeId "tsk" ts b0 b1 b2) } := by
      intro q
      rw [findTaskId_completion_utt]
      simp only [rqpB6, rqpStatusTask]
      rw [if_pos (testCompleteWords_head _)]
    simp only [regexQuickParse, normChars_completion_utt, hb1, hb2, rqpB3, rqpB4, rqpB5,
      hps, Option.map_none', hb6]
    rfl
  · intro rows spaceId tm hmem hid huniq
    simp only [findTasksByQuery, normalizeText_makeId]
    rw [if_neg (makeId_ne_empty ts b0 b1 b2)]
    rw [find?_eq_of_unique _ hmem (by simp [hid])
      (fun b hb hpb => huniq b hb (by simpa using hpb))]

def c10Row : TaskRow :=
  { task_id := "tsk_0_abcdef", title := "資料作り", status := "open", group_id := "S" }

theorem makeId_roundtrip_witness :
    regexQuickParse ("完了 " ++ makeId "tsk" 0 171 205 239) 0 =
      some { action := some "complete_task",
             task_id := some (makeId "tsk" 0 171 205 239) } ∧
    findTasksByQuery [c10Row] "S" (makeId "tsk" 0 171 205 239) 200 = [c10Row] := by
  have h := makeId_roundtrip 0 171 205 239 (by decide) (by decide) (by decide)
  exact ⟨h.1 0, h.2 [c10Row] "S" c10Row (by decide) (by decide) (by decide)⟩

/-- C10 counterexample: the id generator can emit an identifier whose
base-36 timestamp contains the keyword `project` — the timestamp
2019360996180 (2033-12-28) renders as `project0` — and then the completion
utterance with that exact id is captured by the earlier project-status rule
and parsed as `update_project`, not `complete_task`. -/
theorem c10_keyword_collision :
    makeId "tsk" 2019360996180 0 0 0 = "tsk_project0_000000" ∧
    regexQuickParse ("完了 " ++ makeId "tsk" 2019360996180 0 0 0) 0 =
      some { action := some "update_project", query := some "tsk_ 0_000000",
             status := some "done" } ∧
    regexQuickParse ("完了 " ++ makeId "tsk" 2019360996180 0 0 0) 0 ≠
      some { action := some "complete_task", task_id := some "tsk_project0_000000" } := by
  refine ⟨by decide, by decide, by decide⟩

example : isTriggeredText "＠KAI bot こんにちは" = true := by decide
example : isTriggeredText "よろしくボット" = false := by decide
example : isTriggeredText "ボットに伝えて" = false := by decide
example : isTriggeredText "ボット タスク一覧" = true := by decide
example : stripTriggerPrefix "@KAI bot タスク一覧" = "タスク一覧" := by decide

end KaiBot
